import Mathlib

/-!
Shallow embedding of the core ETL pipeline of `src/main.py` (helpers in
`src/etl_utils.py`): record normalization, validity / invalidity
classification and monthly aggregation over an in-memory batch.

Modelling conventions:
* a pandas DataFrame cell that may be `NaN` is an `Option`;
* the batch is a `List RawRecord`; row position (the pandas RangeIndex
  produced by `cargar_ficheros_en_dataframe`, which concatenates with
  `ignore_index=True`) is made explicit as a `Nat` paired with each row;
* amounts are exact integers in cents after the `round(2)` of line 83
  (`float` arithmetic of the source is exact on this grid for the values
  the claims exercise), and exact mantissa/exponent pairs before it;
* `pd.to_datetime(..., errors='coerce')` is modelled by a strict
  `YYYY-MM-DD` parser (the spec's stated date rule); `astype(float)` by a
  decimal-string parser that fails (raises) on non-numeric input.
-/

namespace ETL

/-- Calendar date as stored in a parsed datetime column. -/
structure SDate where
  year : Nat
  month : Nat
  day : Nat
deriving DecidableEq, Repr

/-- One input row of the concatenated DataFrame `df_principal`: the five raw
CSV fields plus the `Audit_Date` column stamped by
`cargar_ficheros_en_dataframe` (already a datetime or `NaT`, since the file
name is parsed with `pd.to_datetime(..., errors='coerce')` before the core
runs). `none` is a pandas null. -/
structure RawRecord where
  sale_id : Option String
  product : Option String
  amount : Option String
  date : Option String
  audit_date : Option SDate
deriving DecidableEq, Repr

/-- Row of the `Ventas_Validas_M` output of `limpiar_ventas_validas` after
all column fixes: amount parsed (and EUR-converted) to a number, dates
parsed to datetimes. -/
structure VRec where
  sale_id : Option String
  product : Option String
  amount : Option Int
  date : Option SDate
  audit_date : Option SDate
deriving DecidableEq, Repr

/-- Row of the `Ventas_Invalidas_M` output of `limpiar_ventas_invalidas`:
`Sale_ID` and `Product` have been stringified (`astype(str)`, so a null
becomes the literal text "nan") and transformed; `Amount` and `Date` keep
their raw values; `Audit_Date` keeps its datetime-or-NaT value. -/
structure IRec where
  sale_id : String
  product : String
  amount : Option String
  date : Option String
  audit_date : Option SDate
deriving DecidableEq, Repr

instance {e a : Type} [DecidableEq e] [DecidableEq a] : DecidableEq (Except e a) :=
  fun x y =>
    match x, y with
    | .ok v, .ok w =>
        if h : v = w then isTrue (by rw [h]) else isFalse (fun he => by cases he; exact h rfl)
    | .error v, .error w =>
        if h : v = w then isTrue (by rw [h]) else isFalse (fun he => by cases he; exact h rfl)
    | .ok _, .error _ => isFalse (fun he => by cases he)
    | .error _, .ok _ => isFalse (fun he => by cases he)

/-- Reason code attached by `limpiar_ventas_invalidas`. -/
inductive Reason where
  | N
  | A
  | D
deriving DecidableEq, Repr

/-- Row of the `Ventas_Resumen_Mensual` output of
`generar_ventas_resumen_mensual`. -/
structure SummaryRow where
  mes : String
  producto : String
  ventas_totales : Int
  numero_transacciones : Nat
  venta_minima : Int
deriving DecidableEq, Repr

/-! ### String and number parsing helpers

All string manipulation is carried out by structurally recursive functions
over `List Char`, so that concrete batches evaluate inside the kernel.
Monetary values are represented exactly: a freshly parsed decimal literal
as an integer mantissa with a power-of-ten exponent, and every amount
after line 83's `round(2)` as an integer number of cents (the 2-decimal
floats of the source are exactly the cent grid on the data this pipeline
handles). -/

/-- Numeric value of a list of decimal digit characters. -/
def digitsToNat (cs : List Char) : Nat :=
  cs.foldl (fun n c => n * 10 + (c.toNat - 48)) 0

/-- Exact decimal number `mant / 10 ^ exp`, the value of a parsed `Amount`
literal before conversion and rounding. -/
structure DecNum where
  mant : Int
  exp : Nat
deriving DecidableEq, Repr

/-- Model of `str.upper()` (ASCII, which is all the pipeline's data
uses). -/
def strUpper (s : String) : String :=
  ⟨s.data.map Char.toUpper⟩

/-- Whitespace as stripped by `str.strip()` / tolerated by `float`. -/
def isWsChar (c : Char) : Bool :=
  c = ' ' || c = '\t' || c = '\n' || c = '\r'

/-- Drop whitespace from both ends. -/
def trimChars (cs : List Char) : List Char :=
  ((cs.dropWhile isWsChar).reverse.dropWhile isWsChar).reverse

/-- Model of `str.strip()`. -/
def strTrim (s : String) : String :=
  ⟨trimChars s.data⟩

/-- Model of `str.split(c)` for a one-character separator: split on every
occurrence, always yielding at least one (possibly empty) segment. -/
def splitChar (c : Char) : List Char → List (List Char)
  | [] => [[]]
  | x :: xs =>
      match splitChar c xs with
      | [] => [[x]]
      | s :: ss => if x = c then [] :: s :: ss else (x :: s) :: ss

/-- Last `-`-separated segment (`.str.split('-').str[-1]`). -/
def lastSeg (s : String) : String :=
  ⟨(splitChar '-' s.data).getLastD s.data⟩

/-- Remove every (non-overlapping, left-to-right) occurrence of the
three-character pattern `p1 p2 p3`, the behaviour of
`str.replace(pat, '')`. -/
def removePat3 (p1 p2 p3 : Char) : List Char → List Char
  | a :: b :: c :: rest =>
      if a = p1 && b = p2 && c = p3 then removePat3 p1 p2 p3 rest
      else a :: removePat3 p1 p2 p3 (b :: c :: rest)
  | cs => cs

/-- Test for an occurrence of the three-character pattern `p1 p2 p3`, the
behaviour of one alternative of the regex `.str.contains('USD|EUR')`. -/
def containsPat3 (p1 p2 p3 : Char) : List Char → Bool
  | a :: b :: c :: rest =>
      (a = p1 && b = p2 && c = p3) || containsPat3 p1 p2 p3 (b :: c :: rest)
  | _ => false

/-- Substring containment of a three-letter pattern in a string. -/
def containsSub3 (s : String) (p1 p2 p3 : Char) : Bool :=
  containsPat3 p1 p2 p3 s.data

/-- Line 77 of `main.py`: `.str.replace('USD', '').str.replace('EUR', '')`
(every occurrence, applied in that order). -/
def stripCurrency (s : String) : String :=
  ⟨removePat3 'E' 'U' 'R' (removePat3 'U' 'S' 'D' s.data)⟩

/-- Line 81 of `main.py`: `.str.endswith('EUR')` on the original `Amount`
string (case sensitive). -/
def endsWithEUR (s : String) : Bool :=
  match s.data.reverse with
  | c :: b :: a :: _ => a = 'E' && b = 'U' && c = 'R'
  | _ => false

/-- Parse an unsigned decimal literal (digits with at most one point, at
least one digit overall), the unsigned core of what Python `float` accepts
on the inputs this pipeline sees. -/
def parseDecCore (cs : List Char) : Option DecNum :=
  let intPart := cs.takeWhile Char.isDigit
  let rest := cs.dropWhile Char.isDigit
  match rest with
  | [] => if intPart.isEmpty then none else some ⟨(digitsToNat intPart : Nat), 0⟩
  | '.' :: fr =>
      if fr.all Char.isDigit && (!intPart.isEmpty || !fr.isEmpty) then
        some ⟨(digitsToNat intPart * 10 ^ fr.length + digitsToNat fr : Nat), fr.length⟩
      else none
  | _ => none

/-- Model of Python `float(s)` on a string cell: optional surrounding
whitespace and sign, then a decimal literal; `none` when `float` would
raise `ValueError` (which `astype(float)` propagates). -/
def parseDecimal (s : String) : Option DecNum :=
  match trimChars s.data with
  | [] => none
  | '-' :: cs => (parseDecCore cs).map (fun d => ⟨-d.mant, d.exp⟩)
  | '+' :: cs => parseDecCore cs
  | cs => parseDecCore cs

/-- Model of `pd.to_datetime(s, errors='coerce')` restricted to the strict
`YYYY-MM-DD` shape the pipeline's data uses; anything else coerces to
`NaT` (`none`). -/
def parseDate (s : String) : Option SDate :=
  match splitChar '-' (trimChars s.data) with
  | [y, m, d] =>
      if y.length = 4 && m.length = 2 && d.length = 2
          && y.all Char.isDigit && m.all Char.isDigit && d.all Char.isDigit then
        let mn := digitsToNat m
        let dn := digitsToNat d
        if 1 ≤ mn && mn ≤ 12 && 1 ≤ dn && dn ≤ 31 then
          some ⟨digitsToNat y, mn, dn⟩
        else none
      else none
  | _ => none

/-- Round-half-up division `round (a / b)` for `b > 0`, the rounding of
`Series.round` on the exact values this pipeline produces. -/
def roundDiv (a b : ℤ) : ℤ :=
  Int.fdiv (2 * a + b) (2 * b)

/-- Minimum of two integers. -/
def intMin (a b : ℤ) : ℤ :=
  if a ≤ b then a else b

/-- Zero-pad a number to two digits, as `strftime('%m')` does. -/
def pad2 (n : Nat) : String :=
  if n < 10 then "0" ++ toString n else toString n

/-- Line 164 of `main.py`: `df['Date'].dt.strftime('%m/%Y')`. -/
def mesStr (d : SDate) : String :=
  pad2 d.month ++ "/" ++ toString d.year

/-! ### Generic list helpers -/

/-- Pair every element with its position, starting at `k` (the DataFrame
RangeIndex). -/
def enumF {α : Type} (k : Nat) : List α → List (Nat × α)
  | [] => []
  | x :: xs => (k, x) :: enumF (k + 1) xs

/-- Auxiliary for `dedupBy`: keep an element only when its key has not been
seen yet. -/
def dedupByAux {α κ : Type} [DecidableEq κ] (key : α → κ) : List α → List κ → List α
  | [], _ => []
  | x :: xs, seen =>
      if key x ∈ seen then dedupByAux key xs seen
      else x :: dedupByAux key xs (key x :: seen)

/-- Model of `DataFrame.drop_duplicates(subset=[k], keep='first')`: keep the
first row of each key class, in input order. -/
def dedupBy {α κ : Type} [DecidableEq κ] (key : α → κ) (l : List α) : List α :=
  dedupByAux key l []

/-- Apply a fallible function to every element; the first failure aborts the
whole list (the behaviour of `Series.astype(float)`, which raises as soon as
any cell cannot be converted). -/
def mapExcept {α β : Type} (f : α → Except Unit β) : List α → Except Unit (List β)
  | [] => .ok []
  | x :: xs =>
      match f x, mapExcept f xs with
      | .error e, _ => .error e
      | .ok _, .error e => .error e
      | .ok y, .ok ys => .ok (y :: ys)

/-- Minimum of a list of amounts, `none` on the empty list (model of the
`min` aggregate of `groupby.agg`). -/
def amtMin : List Int → Option Int
  | [] => none
  | x :: l =>
      match amtMin l with
      | none => some x
      | some m => some (intMin x m)

/-! ### Validity classifier: `limpiar_ventas_validas` (lines 53-100) -/

/-- Line 59: `df['Sale_ID'] = df['Sale_ID'].str.upper()`. -/
def upSale (r : RawRecord) : RawRecord :=
  { r with sale_id := r.sale_id.map strUpper }

/-- Line 67: `df['Product'] = df['Product'].str.upper().str.strip().str.split('-').str[-1]`. -/
def normProd (r : RawRecord) : RawRecord :=
  { r with product := r.product.map (fun p => lastSeg (strTrim (strUpper p))) }

/-- Line 59: the batch with `Sale_ID` uppercased, rows paired with their
index. -/
def validasL1 (rs : List RawRecord) : List (Nat × RawRecord) :=
  (enumF 0 rs).map (fun p => (p.1, upSale p.2))

/-- Line 61: `df = df[df['Sale_ID'].notna()]`. -/
def validasL2 (rs : List RawRecord) : List (Nat × RawRecord) :=
  (validasL1 rs).filter (fun p => p.2.sale_id.isSome)

/-- Deduplication key of a row: its (already uppercased) `Sale_ID` cell. -/
def vKey (p : Nat × RawRecord) : Option String :=
  p.2.sale_id

/-- Line 63: `df = df.drop_duplicates(subset=['Sale_ID'], keep='first')`.
Note this runs before the `Product`, `Amount` and date filters. -/
def validasL3 (rs : List RawRecord) : List (Nat × RawRecord) :=
  dedupBy vKey (validasL2 rs)

/-- Lines 59-69 of `main.py`: uppercase `Sale_ID`, drop null `Sale_ID`, drop
later `Sale_ID` duplicates, transform `Product`, drop null `Product`. -/
def validasPre (rs : List RawRecord) : List (Nat × RawRecord) :=
  ((validasL3 rs).map (fun p => (p.1, normProd p.2))).filter
    (fun p => p.2.product.isSome)

/-- Lines 75-83: strip the currency letters out of the raw `Amount` string,
convert the remainder with `astype(float)` (which raises on a non-numeric
remainder — modelled as `Except.error`), multiply by 0.85 when the original
string ends with `'EUR'`, and round to two decimals. A null cell stays
null. The result is an exact integer number of cents: for a parsed value
`m / 10 ^ e`, the rounded column value `round(value * 0.85, 2)` (resp.
`round(value, 2)`) is `roundDiv (85 * m) (10 ^ e) / 100` (resp. with
`100 * m`), and the division by 100 is left implicit in the cent unit. -/
def convAmount (o : Option String) : Except Unit (Option Int) :=
  match o with
  | none => .ok none
  | some s =>
      match parseDecimal (stripCurrency s) with
      | none => .error ()
      | some d =>
          .ok (some (roundDiv (if endsWithEUR s then 85 * d.mant else 100 * d.mant)
            ((10 : Int) ^ d.exp)))

/-- Per-row conversion of the typed columns (amount via `convAmount`, dates
via `pd.to_datetime(..., errors='coerce')`). -/
def rowConv (p : Nat × RawRecord) : Except Unit (Nat × VRec) :=
  (convAmount p.2.amount).map (fun a =>
    (p.1, { sale_id := p.2.sale_id
            product := p.2.product
            amount := a
            date := p.2.date.bind parseDate
            audit_date := p.2.audit_date }))

/-- Lines 85-97: drop rows whose `Amount`, `Date` or `Audit_Date` is null
after conversion. -/
def validasPost (l : List (Nat × VRec)) : List (Nat × VRec) :=
  ((l.filter (fun p => p.2.amount.isSome)).filter
    (fun p => p.2.date.isSome)).filter (fun p => p.2.audit_date.isSome)

/-- The whole of `limpiar_ventas_validas` (lines 53-100 of `main.py`). The
function body has no `try/except`, so a conversion failure inside it is
propagated to the caller (`Except.error`). -/
def limpiar_ventas_validas (rs : List RawRecord) : Except Unit (List (Nat × VRec)) :=
  match mapExcept rowConv (validasPre rs) with
  | .error e => .error e
  | .ok l => .ok (validasPost l)

/-! ### Invalidity classifier: `limpiar_ventas_invalidas` (lines 106-151) -/

/-- Model of `astype(str)` on an optional string cell: pandas renders a null
as the literal text "nan". -/
def strOfOpt (o : Option String) : String :=
  o.getD "nan"

/-- Line 112: `df['Sale_ID'].astype(str).str.upper()`. -/
def invSaleId (o : Option String) : String :=
  strUpper (strOfOpt o)

/-- Line 113: `df['Product'].astype(str).str.split('-').str[-1].str.upper()`. -/
def invProduct (o : Option String) : String :=
  strUpper (lastSeg (strOfOpt o))

/-- The row as `limpiar_ventas_invalidas` sees it after its two column
fixes. -/
def toIRec (r : RawRecord) : IRec :=
  { sale_id := invSaleId r.sale_id
    product := invProduct r.product
    amount := r.amount
    date := r.date
    audit_date := r.audit_date }

/-- Line 119: `df.isnull().any(axis=1)`. After `astype(str)` the `Sale_ID`
and `Product` columns can no longer be null, so only `Amount`, `Date` and
`Audit_Date` are effectively tested. -/
def isNullRow (r : IRec) : Bool :=
  r.amount.isNone || r.date.isNone || r.audit_date.isNone

/-- Lines 127-129: the uppercased `Amount` string contains `'USD'` or
`'EUR'` as a substring. Rows reaching this test have a non-null `Amount`. -/
def validCur (r : IRec) : Bool :=
  match r.amount with
  | none => false
  | some s =>
      containsSub3 (strUpper s) 'U' 'S' 'D' || containsSub3 (strUpper s) 'E' 'U' 'R'

/-- The batch after the two column fixes, with row indices. -/
def invL (rs : List RawRecord) : List (Nat × IRec) :=
  (enumF 0 rs).map (fun p => (p.1, toIRec p.2))

/-- Lines 119-121: bucket N, every row with at least one null cell (after
the stringification of `Sale_ID` and `Product`), tagged `'N'`. -/
def invNulos (rs : List RawRecord) : List (Nat × IRec × Reason) :=
  ((invL rs).filter (fun p => isNullRow p.2)).map (fun p => (p.1, p.2, Reason.N))

/-- Lines 125-131: bucket A, every row with no null cell whose `Amount`
lacks a currency mark, tagged `'A'`. -/
def invMonto (rs : List RawRecord) : List (Nat × IRec × Reason) :=
  (((invL rs).filter (fun p => !isNullRow p.2)).filter
      (fun p => !validCur p.2)).map (fun p => (p.1, p.2, Reason.A))

/-- Line 134: `df_restantes`, the rows claimed by neither rule N nor rule
A. -/
def invRestantes (rs : List RawRecord) : List (Nat × IRec) :=
  ((invL rs).filter (fun p => !isNullRow p.2)).filter (fun p => validCur p.2)

/-- Lines 136-138: bucket D, every remaining row whose `Sale_ID` occurs
more than once among the remaining rows (`duplicated(subset='Sale_ID',
keep=False)`), tagged `'D'`. -/
def invDups (rs : List RawRecord) : List (Nat × IRec × Reason) :=
  ((invRestantes rs).filter (fun p =>
      2 ≤ (invRestantes rs).countP (fun q => q.2.sale_id = p.2.sale_id))).map
    (fun p => (p.1, p.2, Reason.D))

/-- The whole of `limpiar_ventas_invalidas` (lines 106-151): bucket N (any
null cell), then bucket A (non-null rows whose `Amount` lacks a currency
mark), then bucket D (every remaining row whose `Sale_ID` occurs more than
once among the remaining rows), concatenated in that order. The body never
fails, so the `except` branch returning an empty DataFrame is never
taken. -/
def limpiar_ventas_invalidas (rs : List RawRecord) : List (Nat × IRec × Reason) :=
  invNulos rs ++ invMonto rs ++ invDups rs

/-! ### Monthly aggregator: `generar_ventas_resumen_mensual` (lines 156-179) -/

/-- Month key of a valid row, `strftime('%m/%Y')` on its parsed date. -/
def mesOf (v : VRec) : String :=
  match v.date with
  | some d => mesStr d
  | none => ""

/-- Product key of a valid row. On the aggregator's actual inputs the field
is always present. -/
def prodOf (v : VRec) : String :=
  v.product.getD ""

/-- Amount (in cents) of a valid row. On the aggregator's actual inputs
the field is always present. -/
def amtOf (v : VRec) : Int :=
  v.amount.getD 0

/-- Group key of a valid row. -/
def keyOf (v : VRec) : String × String :=
  (mesOf v, prodOf v)

/-- Strict lexicographic comparison of character lists by code point, the
order Python string comparison uses. -/
def charListLt : List Char → List Char → Bool
  | [], [] => false
  | [], _ :: _ => true
  | _ :: _, [] => false
  | a :: as, b :: bs =>
      decide (a.toNat < b.toNat) || (decide (a.toNat = b.toNat) && charListLt as bs)

/-- Strict string comparison by code point. -/
def strLtB (s t : String) : Bool :=
  charListLt s.data t.data

/-- Ascending lexicographic order on `(Mes, Producto)` keys, the order
`groupby(['Mes', 'Product'])` (with its default `sort=True`) emits groups
in. -/
def keyLe (a b : String × String) : Prop :=
  (strLtB a.1 b.1 || (decide (a.1 = b.1) && (strLtB a.2 b.2 || decide (a.2 = b.2)))) = true

instance : DecidableRel keyLe := fun a b =>
  inferInstanceAs (Decidable ((strLtB a.1 b.1 ||
    (decide (a.1 = b.1) && (strLtB a.2 b.2 || decide (a.2 = b.2)))) = true))

/-- The distinct `(Mes, Producto)` keys observed among the valid rows, in
first-occurrence order (the sort comes afterwards). -/
def resumenKeys (rows : List (Nat × VRec)) : List (String × String) :=
  dedupBy id (rows.map (fun p => keyOf p.2))

/-- The `Amount` column (in cents) of the group carrying key `k`. -/
def groupAmts (rows : List (Nat × VRec)) (k : String × String) : List Int :=
  (rows.filter (fun p => keyOf p.2 = k)).map (fun p => amtOf p.2)

/-- The aggregate row of one group: sum, count and minimum of the `Amount`
column over the rows carrying the key. -/
def resumenRow (rows : List (Nat × VRec)) (k : String × String) : SummaryRow :=
  { mes := k.1
    producto := k.2
    ventas_totales := (groupAmts rows k).sum
    numero_transacciones := (groupAmts rows k).length
    venta_minima := (amtMin (groupAmts rows k)).getD 0 }

/-- The whole of `generar_ventas_resumen_mensual` (lines 156-179): group the
valid rows by `(Mes, Product)` and emit, sorted ascending by the group key,
one row per key with the sum, count and minimum of `Amount`. The body never
fails on in-memory rows, so the `except` branch returning an empty DataFrame
is never taken. -/
def generar_ventas_resumen_mensual (rows : List (Nat × VRec)) : List SummaryRow :=
  (List.insertionSort keyLe (resumenKeys rows)).map (resumenRow rows)

/-! ### Helper lemmas about the list combinators -/

theorem enumF_mem {α : Type} (l : List α) (k n : Nat) (a : α) :
    (n, a) ∈ enumF k l ↔ ∃ i, l[i]? = some a ∧ n = k + i := by
  induction l generalizing k with
  | nil => simp [enumF]
  | cons x xs ih =>
    simp only [enumF, List.mem_cons, ih, Prod.mk.injEq]
    constructor
    · rintro (⟨rfl, rfl⟩ | ⟨i, hi, rfl⟩)
      · exact ⟨0, by simp, by omega⟩
      · exact ⟨i + 1, by simpa using hi, by omega⟩
    · rintro ⟨i, hi, rfl⟩
      match i with
      | 0 => left; simp at hi; simp [hi]
      | j + 1 => right; exact ⟨j, by simpa using hi, by omega⟩

theorem enumF_zero_mem {α : Type} (l : List α) (n : Nat) (a : α) :
    (n, a) ∈ enumF 0 l ↔ l[n]? = some a := by
  rw [enumF_mem]
  constructor
  · rintro ⟨i, hi, rfl⟩; simpa using hi
  · intro h; exact ⟨n, h, by omega⟩

theorem enumF_pairwise {α : Type} (l : List α) (k : Nat) :
    List.Pairwise (fun p q => p.1 < q.1) (enumF k l) := by
  induction l generalizing k with
  | nil => exact List.Pairwise.nil
  | cons x xs ih =>
    refine List.pairwise_cons.mpr ⟨?_, ih (k + 1)⟩
    rintro ⟨n, a⟩ hn
    rcases (enumF_mem xs (k + 1) n a).mp hn with ⟨i, _, rfl⟩
    simp; omega

theorem mem_dedupByAux {α κ : Type} [DecidableEq κ] (key : α → κ) (l : List α)
    (seen : List κ) (p : α) :
    p ∈ dedupByAux key l seen ↔
      key p ∉ seen ∧ l.find? (fun x => decide (key x = key p)) = some p := by
  induction l generalizing seen with
  | nil => simp [dedupByAux]
  | cons x xs ih =>
    by_cases hx : key x ∈ seen
    · rw [show dedupByAux key (x :: xs) seen = dedupByAux key xs seen from by
        simp [dedupByAux, hx]]
      by_cases hk : key x = key p
      · constructor
        · intro h
          exact absurd (hk ▸ hx) ((ih seen).mp h).1
        · rintro ⟨h1, _⟩
          exact absurd (hk ▸ hx) h1
      · rw [ih, List.find?_cons_of_neg _ (by simp [hk])]
    · rw [show dedupByAux key (x :: xs) seen = x :: dedupByAux key xs (key x :: seen) from by
        simp [dedupByAux, hx]]
      by_cases hk : key x = key p
      · rw [List.find?_cons_of_pos _ (by simp [hk])]
        constructor
        · rintro h
          rcases List.mem_cons.mp h with rfl | h'
          · exact ⟨hk ▸ hx, rfl⟩
          · rcases (ih (key x :: seen)).mp h' with ⟨h1, _⟩
            exact absurd (List.mem_cons_self _ _) (by rw [hk] at h1; exact h1)
        · rintro ⟨_, h2⟩
          exact List.mem_cons.mpr (Or.inl (Option.some.inj h2).symm)
      · rw [List.find?_cons_of_neg _ (by simp [hk])]
        constructor
        · intro h
          rcases List.mem_cons.mp h with rfl | h'
          · exact absurd rfl hk
          · rcases (ih (key x :: seen)).mp h' with ⟨h1, h2⟩
            exact ⟨fun hs => h1 (List.mem_cons_of_mem _ hs), h2⟩
        · rintro ⟨h1, h2⟩
          refine List.mem_cons.mpr (Or.inr ((ih (key x :: seen)).mpr ⟨?_, h2⟩))
          intro hs
          rcases List.mem_cons.mp hs with hc | hc
          · exact hk hc.symm
          · exact h1 hc

theorem mem_dedupBy {α κ : Type} [DecidableEq κ] (key : α → κ) (l : List α) (p : α) :
    p ∈ dedupBy key l ↔ l.find? (fun x => decide (key x = key p)) = some p := by
  rw [dedupBy, mem_dedupByAux]
  simp

theorem dedupBy_subset {α κ : Type} [DecidableEq κ] {key : α → κ} {l : List α} {p : α}
    (h : p ∈ dedupBy key l) : p ∈ l :=
  List.mem_of_find?_eq_some ((mem_dedupBy key l p).mp h)

theorem dedupByAux_keys_pairwise {α κ : Type} [DecidableEq κ] (key : α → κ)
    (l : List α) (seen : List κ) :
    List.Pairwise (fun a b => key a ≠ key b) (dedupByAux key l seen) := by
  induction l generalizing seen with
  | nil => exact List.Pairwise.nil
  | cons x xs ih =>
    by_cases hx : key x ∈ seen
    · rw [show dedupByAux key (x :: xs) seen = dedupByAux key xs seen from by
        simp [dedupByAux, hx]]
      exact ih seen
    · rw [show dedupByAux key (x :: xs) seen = x :: dedupByAux key xs (key x :: seen) from by
        simp [dedupByAux, hx]]
      refine List.pairwise_cons.mpr ⟨?_, ih (key x :: seen)⟩
      intro b hb
      rcases (mem_dedupByAux key xs (key x :: seen) b).mp hb with ⟨h1, _⟩
      exact fun he => h1 (he ▸ List.mem_cons_self _ _)

theorem dedupBy_keys_pairwise {α κ : Type} [DecidableEq κ] (key : α → κ) (l : List α) :
    List.Pairwise (fun a b => key a ≠ key b) (dedupBy key l) :=
  dedupByAux_keys_pairwise key l []

theorem find?_first {α : Type} {R : α → α → Prop} {l : List α} {f : α → Bool} {a b : α}
    (hp : List.Pairwise R l) (hf : l.find? f = some a) (hb : b ∈ l)
    (hfb : f b = true) : a = b ∨ R a b := by
  induction l with
  | nil => simp at hb
  | cons x xs ih =>
    rcases List.pairwise_cons.mp hp with ⟨hx, hp2⟩
    by_cases hfx : f x = true
    · rw [List.find?_cons_of_pos _ hfx] at hf
      obtain rfl : x = a := Option.some.inj hf
      rcases List.mem_cons.mp hb with rfl | hb2
      · exact Or.inl rfl
      · exact Or.inr (hx _ hb2)
    · rw [List.find?_cons_of_neg _ hfx] at hf
      rcases List.mem_cons.mp hb with rfl | hb2
      · exact absurd hfb hfx
      · exact ih hp2 hf hb2

theorem mapExcept_ok_mem {α β : Type} {f : α → Except Unit β} :
    ∀ {l : List α} {out : List β}, mapExcept f l = .ok out →
      ∀ b, b ∈ out ↔ ∃ a ∈ l, f a = .ok b := by
  intro l
  induction l with
  | nil =>
    intro out h b
    simp only [mapExcept] at h
    cases h
    simp
  | cons x xs ih =>
    intro out h b
    simp only [mapExcept] at h
    cases hfx : f x with
    | error e => rw [hfx] at h; cases h
    | ok y =>
      rw [hfx] at h
      cases hxs : mapExcept f xs with
      | error e => rw [hxs] at h; cases h
      | ok ys =>
        rw [hxs] at h
        cases h
        simp only [List.mem_cons, ih hxs b]
        constructor
        · rintro (rfl | ⟨a, ha, hfa⟩)
          · exact ⟨x, Or.inl rfl, hfx⟩
          · exact ⟨a, Or.inr ha, hfa⟩
        · rintro ⟨a, rfl | ha, hfa⟩
          · rw [hfx] at hfa
            injection hfa with h
            exact Or.inl h.symm
          · exact Or.inr ⟨a, ha, hfa⟩

theorem mapExcept_ok_total {α β : Type} {f : α → Except Unit β} {l : List α}
    (h : ∀ a ∈ l, ∃ b, f a = .ok b) : ∃ out, mapExcept f l = .ok out := by
  induction l with
  | nil => exact ⟨[], rfl⟩
  | cons x xs ih =>
    rcases h x (List.mem_cons_self _ _) with ⟨y, hy⟩
    rcases ih (fun a ha => h a (List.mem_cons_of_mem _ ha)) with ⟨ys, hys⟩
    exact ⟨y :: ys, by simp [mapExcept, hy, hys]⟩

theorem mapExcept_error_iff {α β : Type} {f : α → Except Unit β} {l : List α} :
    mapExcept f l = .error () ↔ ∃ a ∈ l, f a = .error () := by
  induction l with
  | nil => simp [mapExcept]
  | cons x xs ih =>
    simp only [mapExcept]
    cases hfx : f x with
    | error e =>
      cases e
      simp [hfx]
    | ok y =>
      cases hxs : mapExcept f xs with
      | error e =>
        cases e
        simp only [ih] at hxs
        rcases hxs with ⟨a, ha, hfa⟩
        constructor
        · intro _; exact ⟨a, List.mem_cons_of_mem _ ha, hfa⟩
        · intro _; rfl
      | ok ys =>
        constructor
        · intro h; cases h
        · rintro ⟨a, ha, hfa⟩
          rcases List.mem_cons.mp ha with rfl | ha2
          · rw [hfa] at hfx; cases hfx
          · have : mapExcept f xs = .error () := ih.mpr ⟨a, ha2, hfa⟩
            rw [this] at hxs; cases hxs

theorem countP_two {α : Type} {l : List α} {p : α → Bool} {a b : α}
    (ha : a ∈ l) (hb : b ∈ l) (hab : a ≠ b) (hpa : p a = true) (hpb : p b = true) :
    2 ≤ l.countP p := by
  induction l with
  | nil => simp at ha
  | cons x xs ih =>
    rcases List.mem_cons.mp ha with rfl | ha2
    · rcases List.mem_cons.mp hb with rfl | hb2
      · exact absurd rfl hab
      · rw [List.countP_cons_of_pos _ _ hpa]
        have h1 : 0 < xs.countP p := List.countP_pos_iff.mpr ⟨b, hb2, hpb⟩
        omega
    · rcases List.mem_cons.mp hb with rfl | hb2
      · rw [List.countP_cons_of_pos _ _ hpb]
        have h1 : 0 < xs.countP p := List.countP_pos_iff.mpr ⟨a, ha2, hpa⟩
        omega
      · have h2 := ih ha2 hb2
        rw [List.countP_cons]
        omega

theorem intMin_comm (a b : Int) : intMin a b = intMin b a := by
  unfold intMin
  split_ifs <;> omega

theorem intMin_left_comm (a b c : Int) :
    intMin a (intMin b c) = intMin b (intMin a c) := by
  unfold intMin
  split_ifs <;> omega

theorem amtMin_perm {l1 l2 : List Int} (h : l1.Perm l2) : amtMin l1 = amtMin l2 := by
  induction h with
  | nil => rfl
  | cons x _ ih => simp only [amtMin, ih]
  | swap x y l =>
    simp only [amtMin]
    cases amtMin l with
    | none => simp [intMin_comm]
    | some m => simp [intMin_left_comm]
  | trans _ _ ih1 ih2 => exact ih1.trans ih2

/-! ### Membership characterizations of the validity classifier's stages -/

theorem mem_validasL1 (rs : List RawRecord) (n : Nat) (x : RawRecord) :
    (n, x) ∈ validasL1 rs ↔ ∃ r, rs[n]? = some r ∧ x = upSale r := by
  unfold validasL1
  simp only [List.mem_map]
  constructor
  · rintro ⟨⟨m, r⟩, hm, he⟩
    rcases Prod.mk.injEq .. ▸ he with ⟨rfl, rfl⟩
    exact ⟨r, (enumF_zero_mem rs m r).mp hm, rfl⟩
  · rintro ⟨r, hr, rfl⟩
    exact ⟨(n, r), (enumF_zero_mem rs n r).mpr hr, rfl⟩

theorem mem_validasL2 (rs : List RawRecord) (n : Nat) (x : RawRecord) :
    (n, x) ∈ validasL2 rs ↔
      (∃ r, rs[n]? = some r ∧ x = upSale r) ∧ x.sale_id.isSome := by
  unfold validasL2
  rw [List.mem_filter, mem_validasL1]

theorem validasL2_pairwise (rs : List RawRecord) :
    List.Pairwise (fun p q => p.1 < q.1) (validasL2 rs) := by
  unfold validasL2 validasL1
  refine List.Pairwise.sublist (List.filter_sublist _) ?_
  exact (enumF_pairwise rs 0).map _ (fun a b h => h)

theorem mem_validasL3 (rs : List RawRecord) (n : Nat) (x : RawRecord) :
    (n, x) ∈ validasL3 rs ↔
      (validasL2 rs).find? (fun q => decide (vKey q = vKey (n, x))) = some (n, x) := by
  unfold validasL3
  exact mem_dedupBy vKey (validasL2 rs) (n, x)

theorem mem_validasPre (rs : List RawRecord) (n : Nat) (x : RawRecord) :
    (n, x) ∈ validasPre rs ↔
      (∃ y, (n, y) ∈ validasL3 rs ∧ x = normProd y) ∧ x.product.isSome := by
  unfold validasPre
  rw [List.mem_filter]
  simp only [List.mem_map]
  constructor
  · rintro ⟨⟨⟨m, y⟩, hm, he⟩, hp⟩
    rcases Prod.mk.injEq .. ▸ he with ⟨rfl, rfl⟩
    exact ⟨⟨y, hm, rfl⟩, hp⟩
  · rintro ⟨⟨y, hy, rfl⟩, hp⟩
    exact ⟨⟨(n, y), hy, rfl⟩, hp⟩

theorem rowConv_idx {p : Nat × RawRecord} {n : Nat} {v : VRec}
    (h : rowConv p = .ok (n, v)) : p.1 = n := by
  unfold rowConv at h
  cases hc : convAmount p.2.amount with
  | error e => rw [hc] at h; cases h
  | ok a =>
    rw [hc] at h
    simp only [Except.map] at h
    injection h with h2
    exact congrArg Prod.fst h2

theorem rowConv_error_iff (p : Nat × RawRecord) :
    rowConv p = .error () ↔
      ∃ s, p.2.amount = some s ∧ parseDecimal (stripCurrency s) = none := by
  unfold rowConv convAmount
  cases ha : p.2.amount with
  | none => simp [Except.map]
  | some s =>
    cases hp : parseDecimal (stripCurrency s) with
    | none => simp [Except.map, hp]
    | some d => simp [Except.map, hp]

/-- Characterization of a row of the `Ventas_Validas_M` output. -/
theorem validas_ok_mem {rs : List RawRecord} {out : List (Nat × VRec)}
    (h : limpiar_ventas_validas rs = .ok out) (n : Nat) (v : VRec) :
    (n, v) ∈ out ↔
      (∃ x, (n, x) ∈ validasPre rs ∧ rowConv (n, x) = .ok (n, v)) ∧
        v.amount.isSome ∧ v.date.isSome ∧ v.audit_date.isSome := by
  unfold limpiar_ventas_validas at h
  cases hm : mapExcept rowConv (validasPre rs) with
  | error e => rw [hm] at h; cases h
  | ok l =>
    rw [hm] at h
    injection h with h2
    subst h2
    unfold validasPost
    rw [List.mem_filter, List.mem_filter, List.mem_filter, mapExcept_ok_mem hm (n, v)]
    constructor
    · rintro ⟨⟨⟨⟨⟨m, x⟩, hx, hc⟩, h1⟩, h2⟩, h3⟩
      obtain rfl : m = n := rowConv_idx hc
      exact ⟨⟨x, hx, hc⟩, h1, h2, h3⟩
    · rintro ⟨⟨x, hx, hc⟩, h1, h2, h3⟩
      exact ⟨⟨⟨⟨(n, x), hx, hc⟩, h1⟩, h2⟩, h3⟩

/-- A record whose `Amount` cell, if present, parses after currency
stripping. On such rows `astype(float)` cannot raise. -/
def amountSafe (r : RawRecord) : Prop :=
  ∀ s, r.amount = some s → (parseDecimal (stripCurrency s)).isSome

theorem convAmount_ok_of_safe {r : RawRecord} (h : amountSafe r) :
    ∃ a, convAmount r.amount = .ok a := by
  cases ha : r.amount with
  | none => exact ⟨none, rfl⟩
  | some s =>
    cases hp : parseDecimal (stripCurrency s) with
    | none =>
      have hsafe := h s ha
      rw [hp] at hsafe
      cases hsafe
    | some d =>
      refine ⟨some (roundDiv (if endsWithEUR s then 85 * d.mant else 100 * d.mant)
        ((10 : Int) ^ d.exp)), ?_⟩
      simp only [convAmount, hp]

theorem rowConv_ok_of_safe {p : Nat × RawRecord} (h : amountSafe p.2) :
    ∃ v, rowConv p = .ok v := by
  rcases convAmount_ok_of_safe h with ⟨a, ha⟩
  exact ⟨_, by unfold rowConv; rw [ha]; rfl⟩

theorem validas_ok_of_safe {rs : List RawRecord}
    (h : ∀ p ∈ validasPre rs, amountSafe p.2) :
    ∃ out, limpiar_ventas_validas rs = .ok out := by
  rcases mapExcept_ok_total (f := rowConv) (l := validasPre rs)
      (fun p hp => rowConv_ok_of_safe (h p hp)) with ⟨l, hl⟩
  exact ⟨validasPost l, by unfold limpiar_ventas_validas; rw [hl]⟩

/-- The validity classifier propagates an error exactly when some row
surviving the `Sale_ID` and `Product` fixes has a present but non-numeric
`Amount` remainder. -/
theorem validas_error_iff (rs : List RawRecord) :
    limpiar_ventas_validas rs = .error () ↔
      ∃ p ∈ validasPre rs, ∃ s, p.2.amount = some s ∧
        parseDecimal (stripCurrency s) = none := by
  unfold limpiar_ventas_validas
  cases hm : mapExcept rowConv (validasPre rs) with
  | error e =>
    cases e
    rcases mapExcept_error_iff.mp hm with ⟨p, hp, hc⟩
    rcases (rowConv_error_iff p).mp hc with ⟨s, hs, hn⟩
    simp only [true_iff]
    exact ⟨p, hp, s, hs, hn⟩
  | ok l =>
    constructor
    · intro h; cases h
    · rintro ⟨p, hp, s, hs, hn⟩
      have herr : mapExcept rowConv (validasPre rs) = .error () :=
        mapExcept_error_iff.mpr ⟨p, hp, (rowConv_error_iff p).mpr ⟨s, hs, hn⟩⟩
      rw [herr] at hm
      cases hm

/-! ### Membership characterizations of the invalidity classifier's stages -/

theorem mem_invL (rs : List RawRecord) (n : Nat) (x : IRec) :
    (n, x) ∈ invL rs ↔ ∃ r, rs[n]? = some r ∧ x = toIRec r := by
  unfold invL
  simp only [List.mem_map]
  constructor
  · rintro ⟨⟨m, r⟩, hm, he⟩
    rcases Prod.mk.injEq .. ▸ he with ⟨rfl, rfl⟩
    exact ⟨r, (enumF_zero_mem rs m r).mp hm, rfl⟩
  · rintro ⟨r, hr, rfl⟩
    exact ⟨(n, r), (enumF_zero_mem rs n r).mpr hr, rfl⟩

theorem invL_unique {rs : List RawRecord} {n : Nat} {x y : IRec}
    (hx : (n, x) ∈ invL rs) (hy : (n, y) ∈ invL rs) : x = y := by
  rcases (mem_invL rs n x).mp hx with ⟨r, hr, rfl⟩
  rcases (mem_invL rs n y).mp hy with ⟨r2, hr2, rfl⟩
  rw [hr] at hr2
  cases hr2
  rfl

theorem mem_invNulos (rs : List RawRecord) (n : Nat) (x : IRec) (rea : Reason) :
    (n, x, rea) ∈ invNulos rs ↔
      (n, x) ∈ invL rs ∧ isNullRow x = true ∧ rea = Reason.N := by
  unfold invNulos
  simp only [List.mem_map, List.mem_filter]
  constructor
  · rintro ⟨⟨m, y⟩, ⟨hy, hnull⟩, he⟩
    rcases Prod.mk.injEq .. ▸ he with ⟨rfl, he2⟩
    rcases Prod.mk.injEq .. ▸ he2 with ⟨rfl, rfl⟩
    exact ⟨hy, hnull, rfl⟩
  · rintro ⟨hy, hnull, rfl⟩
    exact ⟨(n, x), ⟨hy, hnull⟩, rfl⟩

theorem mem_invMonto (rs : List RawRecord) (n : Nat) (x : IRec) (rea : Reason) :
    (n, x, rea) ∈ invMonto rs ↔
      (n, x) ∈ invL rs ∧ isNullRow x = false ∧ validCur x = false ∧
        rea = Reason.A := by
  unfold invMonto
  simp only [List.mem_map, List.mem_filter, Bool.not_eq_eq_eq_not, Bool.not_true]
  constructor
  · rintro ⟨⟨m, y⟩, ⟨⟨hy, hnull⟩, hcur⟩, he⟩
    rcases Prod.mk.injEq .. ▸ he with ⟨rfl, he2⟩
    rcases Prod.mk.injEq .. ▸ he2 with ⟨rfl, rfl⟩
    exact ⟨hy, hnull, hcur, rfl⟩
  · rintro ⟨hy, hnull, hcur, rfl⟩
    exact ⟨(n, x), ⟨⟨hy, hnull⟩, hcur⟩, rfl⟩

theorem mem_invRestantes (rs : List RawRecord) (n : Nat) (x : IRec) :
    (n, x) ∈ invRestantes rs ↔
      (n, x) ∈ invL rs ∧ isNullRow x = false ∧ validCur x = true := by
  unfold invRestantes
  simp only [List.mem_filter, Bool.not_eq_eq_eq_not, Bool.not_true]
  exact ⟨fun ⟨⟨h1, h2⟩, h3⟩ => ⟨h1, h2, h3⟩, fun ⟨h1, h2, h3⟩ => ⟨⟨h1, h2⟩, h3⟩⟩

theorem mem_invDups (rs : List RawRecord) (n : Nat) (x : IRec) (rea : Reason) :
    (n, x, rea) ∈ invDups rs ↔
      (n, x) ∈ invRestantes rs ∧
        2 ≤ (invRestantes rs).countP (fun q => q.2.sale_id = x.sale_id) ∧
        rea = Reason.D := by
  unfold invDups
  simp only [List.mem_map, List.mem_filter, decide_eq_true_eq]
  constructor
  · rintro ⟨⟨m, y⟩, ⟨hy, hcnt⟩, he⟩
    rcases Prod.mk.injEq .. ▸ he with ⟨rfl, he2⟩
    rcases Prod.mk.injEq .. ▸ he2 with ⟨rfl, rfl⟩
    exact ⟨hy, hcnt, rfl⟩
  · rintro ⟨hy, hcnt, rfl⟩
    exact ⟨(n, x), ⟨hy, hcnt⟩, rfl⟩

/-- Full characterization of a row of the `Ventas_Invalidas_M` output. -/
theorem mem_inv_iff (rs : List RawRecord) (n : Nat) (x : IRec) (rea : Reason) :
    (n, x, rea) ∈ limpiar_ventas_invalidas rs ↔
      (n, x) ∈ invL rs ∧
        ((rea = Reason.N ∧ isNullRow x = true) ∨
         (rea = Reason.A ∧ isNullRow x = false ∧ validCur x = false) ∨
         (rea = Reason.D ∧ isNullRow x = false ∧ validCur x = true ∧
           2 ≤ (invRestantes rs).countP (fun q => q.2.sale_id = x.sale_id))) := by
  unfold limpiar_ventas_invalidas
  simp only [List.mem_append, mem_invNulos, mem_invMonto, mem_invDups,
    mem_invRestantes]
  tauto

/-- Any two output rows of the invalidity classifier carrying the same
input index agree: the classifier never attributes two different reasons
(or two different row contents) to one record. -/
theorem inv_unique {rs : List RawRecord} {n : Nat} {x y : IRec} {ra rb : Reason}
    (hx : (n, x, ra) ∈ limpiar_ventas_invalidas rs)
    (hy : (n, y, rb) ∈ limpiar_ventas_invalidas rs) : x = y ∧ ra = rb := by
  rcases (mem_inv_iff rs n x ra).mp hx with ⟨hx1, hx2⟩
  rcases (mem_inv_iff rs n y rb).mp hy with ⟨hy1, hy2⟩
  obtain rfl : x = y := invL_unique hx1 hy1
  refine ⟨rfl, ?_⟩
  rcases hx2 with ⟨rfl, h2⟩ | ⟨rfl, h2, h3⟩ | ⟨rfl, h2, h3, _⟩ <;>
    rcases hy2 with ⟨rfl, g2⟩ | ⟨rfl, g2, g3⟩ | ⟨rfl, g2, g3, _⟩ <;>
      simp_all

/-! ### Index ordering of the invalidity buckets -/

theorem invL_pairwise (rs : List RawRecord) :
    List.Pairwise (fun p q => p.1 < q.1) (invL rs) := by
  unfold invL
  exact (enumF_pairwise rs 0).map _ (fun a b h => h)

theorem invNulos_pairwise (rs : List RawRecord) :
    List.Pairwise (fun p q => p.1 < q.1) (invNulos rs) := by
  unfold invNulos
  exact (((invL_pairwise rs).sublist (List.filter_sublist _)).map _ (fun a b h => h))

theorem invMonto_pairwise (rs : List RawRecord) :
    List.Pairwise (fun p q => p.1 < q.1) (invMonto rs) := by
  unfold invMonto
  exact ((((invL_pairwise rs).sublist (List.filter_sublist _)).sublist
    (List.filter_sublist _)).map _ (fun a b h => h))

theorem invRestantes_pairwise (rs : List RawRecord) :
    List.Pairwise (fun p q => p.1 < q.1) (invRestantes rs) := by
  unfold invRestantes
  exact (((invL_pairwise rs).sublist (List.filter_sublist _)).sublist
    (List.filter_sublist _))

theorem invDups_pairwise (rs : List RawRecord) :
    List.Pairwise (fun p q => p.1 < q.1) (invDups rs) := by
  unfold invDups
  exact (((invRestantes_pairwise rs).sublist (List.filter_sublist _)).map _
    (fun a b h => h))

theorem isNullRow_toIRec (r : RawRecord) :
    isNullRow (toIRec r) = true ↔
      (r.amount = none ∨ r.date = none ∨ r.audit_date = none) := by
  unfold isNullRow toIRec
  simp [Option.isNone_iff_eq_none, or_assoc]

/-! ### Claims about the invalidity classifier (C1, C4, C7) -/

/-- C1 counterexample: a record whose only disqualifying condition is a
null `Sale_ID` (all other fields present, amount parseable, valid currency
tag) is dropped by the validity classifier and claimed by no invalidity
bucket — it appears in neither output, refuting the claim that every
record with a disqualifying condition lands in `InvalidSale`. -/
theorem C1_counterexample :
    limpiar_ventas_validas
        [⟨none, some "A-B", some "100USD", some "2024-03-01", some ⟨2024, 3, 2⟩⟩] =
      .ok []
    ∧ limpiar_ventas_invalidas
        [⟨none, some "A-B", some "100USD", some "2024-03-01", some ⟨2024, 3, 2⟩⟩] = [] :=
  ⟨by decide, by decide⟩

/-- C1 (amended): every input record appears in at most one `InvalidSale`
bucket (the classifier never attributes two reasons, or two row contents,
to one index), and every record with a null `Amount`, `Date` or
`Audit_Date` cell does land in the N bucket; however a record whose only
disqualifying condition is a null `Sale_ID`/`Product` (stringified to
"nan" before the null test) or a present but unparseable `Date` string can
appear in neither `ValidSale` nor `InvalidSale`. -/
theorem C1_amended :
    (∀ (rs : List RawRecord) (n : Nat) (x y : IRec) (ra rb : Reason),
        (n, x, ra) ∈ limpiar_ventas_invalidas rs →
        (n, y, rb) ∈ limpiar_ventas_invalidas rs → x = y ∧ ra = rb)
    ∧ (∀ (rs : List RawRecord) (n : Nat) (r : RawRecord),
        rs[n]? = some r →
        (r.amount = none ∨ r.date = none ∨ r.audit_date = none) →
        (n, toIRec r, Reason.N) ∈ limpiar_ventas_invalidas rs) := by
  constructor
  · intro rs n x y ra rb hx hy
    exact inv_unique hx hy
  · intro rs n r hr hnull
    exact (mem_inv_iff rs n (toIRec r) Reason.N).mpr
      ⟨(mem_invL rs n (toIRec r)).mpr ⟨r, hr, rfl⟩,
       Or.inl ⟨rfl, (isNullRow_toIRec r).mpr hnull⟩⟩

/-- C1 witness: a record with a null `Amount` cell is claimed by the N
bucket. -/
theorem C1_witness :
    (0, toIRec ⟨some "W1", some "P", none, some "2024-01-02", some ⟨2024, 1, 3⟩⟩,
        Reason.N) ∈
      limpiar_ventas_invalidas
        [⟨some "W1", some "P", none, some "2024-01-02", some ⟨2024, 1, 3⟩⟩] :=
  C1_amended.2 _ 0 _ rfl (Or.inl rfl)

/-- C4 counterexample: a record whose `Date` string is present but fails
normalization (so the claim demands Reason N for it) is claimed by no
invalidity bucket at all — `df.isnull()` sees the unparsed string, not the
failed parse. -/
theorem C4_counterexample :
    parseDate "garbage" = none
    ∧ limpiar_ventas_invalidas
        [⟨some "S1", some "P", some "100USD", some "garbage", some ⟨2024, 3, 2⟩⟩] = [] :=
  ⟨by decide, by decide⟩

/-- C4 (amended): Reason N is assigned to exactly the records with at
least one null raw cell among `Amount`, `Date` and `Audit_Date`. A null
`Sale_ID` or `Product` does not qualify (both are stringified to "nan"
before the null mask), and a present but unparseable `Date` or `Amount`
string does not qualify either; N-qualifying records never flow to rules
2-3. -/
theorem C4_amended : ∀ (rs : List RawRecord) (n : Nat),
    ((∃ x, (n, x, Reason.N) ∈ limpiar_ventas_invalidas rs) ↔
      ∃ r, rs[n]? = some r ∧ (r.amount = none ∨ r.date = none ∨ r.audit_date = none))
    ∧ (∀ (x : IRec) (rea : Reason), (n, x, rea) ∈ limpiar_ventas_invalidas rs →
        isNullRow x = true → rea = Reason.N) := by
  intro rs n
  constructor
  · constructor
    · rintro ⟨x, hx⟩
      rcases (mem_inv_iff rs n x Reason.N).mp hx with ⟨hL, hcase⟩
      rcases (mem_invL rs n x).mp hL with ⟨r, hr, rfl⟩
      rcases hcase with ⟨_, hnull⟩ | ⟨hA, _⟩ | ⟨hD, _⟩
      · exact ⟨r, hr, (isNullRow_toIRec r).mp hnull⟩
      · cases hA
      · cases hD
    · rintro ⟨r, hr, hnull⟩
      exact ⟨toIRec r, (mem_inv_iff rs n (toIRec r) Reason.N).mpr
        ⟨(mem_invL rs n (toIRec r)).mpr ⟨r, hr, rfl⟩,
         Or.inl ⟨rfl, (isNullRow_toIRec r).mpr hnull⟩⟩⟩
  · intro x rea hx hnull
    rcases (mem_inv_iff rs n x rea).mp hx with ⟨_, hcase⟩
    rcases hcase with ⟨rfl, _⟩ | ⟨rfl, hfalse, _⟩ | ⟨rfl, hfalse, _⟩
    · rfl
    · rw [hnull] at hfalse; cases hfalse
    · rw [hnull] at hfalse; cases hfalse

/-- C4 witness: a record with a null `Date` cell receives Reason N. -/
theorem C4_witness :
    ∃ x, (0, x, Reason.N) ∈ limpiar_ventas_invalidas
      [⟨some "K1", some "P", some "5USD", none, some ⟨2024, 2, 2⟩⟩] :=
  ((C4_amended _ 0).1).mpr ⟨_, rfl, Or.inr (Or.inl rfl)⟩

/-- C7 counterexample: a record with a missing field (`Sale_ID` is null)
and a bad currency tag is reported as Reason A, not Reason N — the null
`Sale_ID` was stringified to "NAN" before the null mask, so rule 1 does
not claim it. -/
theorem C7_counterexample :
    limpiar_ventas_invalidas
        [⟨none, some "P", some "100", some "2024-03-01", some ⟨2024, 3, 2⟩⟩] =
      [(0, ⟨"NAN", "P", some "100", some "2024-03-01", some ⟨2024, 3, 2⟩⟩, Reason.A)] := by
  decide

/-- C7 (amended): the output of the invalidity classifier is the
concatenation of an N block, an A block and a D block, each listing rows in
input order (strictly increasing input index), with the three blocks
pairwise disjoint by input index; a record claimed by A was not claimed by
N, and a record claimed by D was claimed by neither N nor A. The earliest
rule wins only with respect to the operational null test: a record with a
null `Amount`, `Date` or `Audit_Date` and a bad currency tag is reported
only as N, but a record whose only missing fields are `Sale_ID` or
`Product` is not claimed by N and can be reported as A or D. -/
theorem C7_amended : ∀ (rs : List RawRecord),
    ∃ bN bA bD : List (Nat × IRec × Reason),
      limpiar_ventas_invalidas rs = bN ++ bA ++ bD
      ∧ (∀ e ∈ bN, e.2.2 = Reason.N) ∧ (∀ e ∈ bA, e.2.2 = Reason.A)
      ∧ (∀ e ∈ bD, e.2.2 = Reason.D)
      ∧ List.Pairwise (fun e f => e.1 < f.1) bN
      ∧ List.Pairwise (fun e f => e.1 < f.1) bA
      ∧ List.Pairwise (fun e f => e.1 < f.1) bD
      ∧ (∀ e ∈ bN, ∀ f ∈ bA, e.1 ≠ f.1)
      ∧ (∀ e ∈ bN, ∀ f ∈ bD, e.1 ≠ f.1)
      ∧ (∀ e ∈ bA, ∀ f ∈ bD, e.1 ≠ f.1)
      ∧ (∀ (n : Nat) (x : IRec) (rea : Reason),
          (n, x, rea) ∈ limpiar_ventas_invalidas rs →
            (rea = Reason.A → isNullRow x = false) ∧
            (rea = Reason.D → isNullRow x = false ∧ validCur x = true)) := by
  intro rs
  refine ⟨invNulos rs, invMonto rs, invDups rs, rfl, ?_, ?_, ?_,
    invNulos_pairwise rs, invMonto_pairwise rs, invDups_pairwise rs, ?_, ?_, ?_, ?_⟩
  · rintro ⟨n, x, rea⟩ he
    exact ((mem_invNulos rs n x rea).mp he).2.2
  · rintro ⟨n, x, rea⟩ he
    exact ((mem_invMonto rs n x rea).mp he).2.2.2
  · rintro ⟨n, x, rea⟩ he
    exact ((mem_invDups rs n x rea).mp he).2.2
  · rintro ⟨n, x, rea⟩ he ⟨m, y, reb⟩ hf rfl
    rcases (mem_invNulos rs n x rea).mp he with ⟨hL1, hnull1, _⟩
    rcases (mem_invMonto rs n y reb).mp hf with ⟨hL2, hnull2, _⟩
    obtain rfl : x = y := invL_unique hL1 hL2
    rw [hnull1] at hnull2
    cases hnull2
  · rintro ⟨n, x, rea⟩ he ⟨m, y, reb⟩ hf rfl
    rcases (mem_invNulos rs n x rea).mp he with ⟨hL1, hnull1, _⟩
    rcases (mem_invDups rs n y reb).mp hf with ⟨hR, _, _⟩
    rcases (mem_invRestantes rs n y).mp hR with ⟨hL2, hnull2, _⟩
    obtain rfl : x = y := invL_unique hL1 hL2
    rw [hnull1] at hnull2
    cases hnull2
  · rintro ⟨n, x, rea⟩ he ⟨m, y, reb⟩ hf rfl
    rcases (mem_invMonto rs n x rea).mp he with ⟨hL1, _, hcur1, _⟩
    rcases (mem_invDups rs n y reb).mp hf with ⟨hR, _, _⟩
    rcases (mem_invRestantes rs n y).mp hR with ⟨hL2, _, hcur2⟩
    obtain rfl : x = y := invL_unique hL1 hL2
    rw [hcur1] at hcur2
    cases hcur2
  · intro n x rea hmem
    rcases (mem_inv_iff rs n x rea).mp hmem with ⟨_, hcase⟩
    constructor
    · rintro rfl
      rcases hcase with ⟨h, _⟩ | ⟨_, h1, _⟩ | ⟨h, _⟩
      · cases h
      · exact h1
      · cases h
    · rintro rfl
      rcases hcase with ⟨h, _⟩ | ⟨h, _⟩ | ⟨_, h1, h2, _⟩
      · cases h
      · cases h
      · exact ⟨h1, h2⟩

/-- C7 witness: on a two-record batch with one null-amount record (bad tag
as well) and one bad-tag record, the blocks are [N-row] ++ [A-row] ++ [],
disjoint and ordered. -/
theorem C7_witness :
    ∃ bN bA bD : List (Nat × IRec × Reason),
      limpiar_ventas_invalidas
          [⟨some "Q1", some "P", none, some "2024-03-01", some ⟨2024, 3, 2⟩⟩,
           ⟨some "Q2", some "P", some "77", some "2024-03-01", some ⟨2024, 3, 2⟩⟩] =
        bN ++ bA ++ bD
      ∧ (∀ e ∈ bN, e.2.2 = Reason.N) ∧ (∀ e ∈ bA, e.2.2 = Reason.A)
      ∧ (∀ e ∈ bD, e.2.2 = Reason.D)
      ∧ List.Pairwise (fun e f => e.1 < f.1) bN
      ∧ List.Pairwise (fun e f => e.1 < f.1) bA
      ∧ List.Pairwise (fun e f => e.1 < f.1) bD
      ∧ (∀ e ∈ bN, ∀ f ∈ bA, e.1 ≠ f.1)
      ∧ (∀ e ∈ bN, ∀ f ∈ bD, e.1 ≠ f.1)
      ∧ (∀ e ∈ bA, ∀ f ∈ bD, e.1 ≠ f.1)
      ∧ (∀ (n : Nat) (x : IRec) (rea : Reason),
          (n, x, rea) ∈ limpiar_ventas_invalidas
            [⟨some "Q1", some "P", none, some "2024-03-01", some ⟨2024, 3, 2⟩⟩,
             ⟨some "Q2", some "P", some "77", some "2024-03-01", some ⟨2024, 3, 2⟩⟩] →
            (rea = Reason.A → isNullRow x = false) ∧
            (rea = Reason.D → isNullRow x = false ∧ validCur x = true)) :=
  C7_amended _

/-! ### Claims about normalization failure behaviour (C2, C8) and the
amount rule (C6) -/

/-- C2 counterexample: an `Amount` whose remainder after currency
stripping is not a decimal number does not become an absent marker — the
column-wide `astype(float)` raises and the whole validity classifier
aborts (`Except.error`), refuting "never raises". -/
theorem C2_counterexample :
    parseDecimal (stripCurrency "XYZ") = none
    ∧ limpiar_ventas_validas
        [⟨some "S1", some "P", some "XYZ", some "2024-03-01", some ⟨2024, 3, 2⟩⟩] =
      .error () :=
  ⟨by decide, by decide⟩

/-- C2 (amended): normalization of `Sale_ID`, `Product`, `Date` and
`Audit_Date` never raises (failures become absent markers), and batches
whose surviving rows all carry parseable-or-null amounts normalize without
raising; but the classifier raises — aborting the batch — exactly when
some row surviving the `Sale_ID`/`Product` stages has a present `Amount`
whose remainder after stripping `USD`/`EUR` is not a decimal number. -/
theorem C2_amended : ∀ (rs : List RawRecord),
    (limpiar_ventas_validas rs = .error () ↔
      ∃ p ∈ validasPre rs, ∃ s, p.2.amount = some s ∧
        parseDecimal (stripCurrency s) = none)
    ∧ ((∀ p ∈ validasPre rs, amountSafe p.2) →
        ∃ out, limpiar_ventas_validas rs = .ok out) :=
  fun rs => ⟨validas_error_iff rs, fun h => validas_ok_of_safe h⟩

/-- C2 witness: a record with an unparseable `Date` but a parseable
`Amount` normalizes without raising (the bad date coerces to an absent
marker). -/
theorem C2_witness :
    ∃ out, limpiar_ventas_validas
      [⟨some "T1", some "P-Q", some "3.5USD", some "not-a-date", some ⟨2024, 4, 2⟩⟩] =
        .ok out := by
  refine (C2_amended _).2 ?_
  intro p hp
  rw [show validasPre
      [⟨some "T1", some "P-Q", some "3.5USD", some "not-a-date", some ⟨2024, 4, 2⟩⟩] =
      [(0, ⟨some "T1", some "Q", some "3.5USD", some "not-a-date", some ⟨2024, 4, 2⟩⟩)]
    from by decide] at hp
  obtain rfl := List.mem_singleton.mp hp
  intro s hs
  cases hs
  decide

/-- C8 counterexample: a fault inside the validity classifier (the
`astype(float)` conversion) is not caught at the component boundary: the
classifier propagates the exception instead of returning an empty
result. -/
theorem C8_counterexample :
    limpiar_ventas_validas
        [⟨some "S2", some "Q", some "ABC", some "2024-01-01", some ⟨2024, 1, 2⟩⟩] =
      .error () := by
  decide

/-- C8 (amended): the invalidity classifier and the monthly aggregator
wrap their bodies in `try/except` and, in this model, are total functions
that always return a plain result; the validity classifier has no such
guard — a conversion fault on any surviving row propagates to the caller
as an exception rather than an empty result. -/
theorem C8_amended : ∀ (rs : List RawRecord) (p : Nat × RawRecord) (s : String),
    p ∈ validasPre rs → p.2.amount = some s →
    parseDecimal (stripCurrency s) = none →
    limpiar_ventas_validas rs = .error () :=
  fun rs p s hp ha hn => (validas_error_iff rs).mpr ⟨p, hp, s, ha, hn⟩

/-- C8 witness: the fault on the single surviving row of a concrete batch
propagates out of the validity classifier. -/
theorem C8_witness :
    limpiar_ventas_validas
        [⟨some "S3", some "R", some "Z9Z", some "2024-02-01", some ⟨2024, 2, 2⟩⟩] =
      .error () :=
  C8_amended _ (0, ⟨some "S3", some "R", some "Z9Z", some "2024-02-01", some ⟨2024, 2, 2⟩⟩)
    "Z9Z" (by decide) rfl (by decide)

/-- C6: for every parseable amount, the normalized value is the decimal
remainder after removing every occurrence of `USD` and `EUR`, multiplied
by 0.85 exactly when the original string ends with `EUR`, then rounded to
2 decimal places. In the exact cent representation used here, a parsed
remainder `m / 10 ^ e` becomes `roundDiv (85 * m) (10 ^ e)` cents when
EUR-tagged and `roundDiv (100 * m) (10 ^ e)` cents otherwise; in
particular `"100EUR"` normalizes to 85.0 (8500 cents), and `"100USD"` and
`"100"` to 100.0 (10000 cents), also through the full classifier. -/
theorem C6_confirmed :
    (∀ (s : String) (d : DecNum), parseDecimal (stripCurrency s) = some d →
        convAmount (some s) =
          .ok (some (roundDiv (if endsWithEUR s then 85 * d.mant else 100 * d.mant)
            ((10 : Int) ^ d.exp))))
    ∧ convAmount (some "100EUR") = .ok (some 8500)
    ∧ convAmount (some "100USD") = .ok (some 10000)
    ∧ convAmount (some "100") = .ok (some 10000)
    ∧ limpiar_ventas_validas
        [⟨some "S1", some "A", some "100EUR", some "2024-03-01", some ⟨2024, 3, 2⟩⟩] =
      .ok [(0, ⟨some "S1", some "A", some 8500, some ⟨2024, 3, 1⟩, some ⟨2024, 3, 2⟩⟩)] := by
  refine ⟨?_, by decide, by decide, by decide, by decide⟩
  intro s d h
  simp only [convAmount, h]

/-- C6 witness: the general amount formula applied at the parseable string
"40EUR". -/
theorem C6_witness :
    convAmount (some "40EUR") =
      .ok (some (roundDiv (if endsWithEUR "40EUR" then 85 * (40 : Int) else 100 * (40 : Int))
        ((10 : Int) ^ (0 : Nat)))) :=
  C6_confirmed.1 "40EUR" ⟨40, 0⟩ (by decide)

/-! ### Claims about ordering of filtering and deduplication (C3, C5) -/

theorem validasL2_at {rs : List RawRecord} {n : Nat} {x r : RawRecord}
    (h : (n, x) ∈ validasL2 rs) (hr : rs[n]? = some r) : x = upSale r := by
  rcases (mem_validasL2 rs n x).mp h with ⟨⟨r0, hr0, rfl⟩, _⟩
  rw [hr] at hr0
  cases hr0
  rfl

theorem validasL3_sub {rs : List RawRecord} {n : Nat} {y : RawRecord}
    (h : (n, y) ∈ validasL3 rs) : (n, y) ∈ validasL2 rs :=
  List.mem_of_find?_eq_some ((mem_validasL3 rs n y).mp h)

theorem validasPre_at {rs : List RawRecord} {n : Nat} {x : RawRecord}
    (h : (n, x) ∈ validasPre rs) :
    ∃ r, rs[n]? = some r ∧ x = normProd (upSale r) := by
  rcases (mem_validasPre rs n x).mp h with ⟨⟨y, hy, rfl⟩, _⟩
  rcases (mem_validasL2 rs n y).mp (validasL3_sub hy) with ⟨⟨r, hr, rfl⟩, _⟩
  exact ⟨r, hr, rfl⟩

theorem memL2_of_key {rs : List RawRecord} {n : Nat} {r : RawRecord} {k : String}
    (hn : rs[n]? = some r) (hk : r.sale_id.map strUpper = some k) :
    (n, upSale r) ∈ validasL2 rs := by
  refine (mem_validasL2 rs n (upSale r)).mpr ⟨⟨r, hn, rfl⟩, ?_⟩
  show (r.sale_id.map strUpper).isSome = true
  rw [hk]
  rfl

/-- The row of a later record sharing the (uppercased) `Sale_ID` of an
earlier record never reaches the `Ventas_Validas_M` output: line 63's
`drop_duplicates(keep='first')` discards it, whatever the rest of either
record looks like. -/
theorem validas_drops_later_duplicate {rs : List RawRecord} {i j : Nat}
    {r1 r2 : RawRecord} {k : String} {out : List (Nat × VRec)}
    (hi : rs[i]? = some r1) (hj : rs[j]? = some r2) (hij : i < j)
    (hk1 : r1.sale_id.map strUpper = some k)
    (hk2 : r2.sale_id.map strUpper = some k)
    (hout : limpiar_ventas_validas rs = .ok out) :
    ∀ v : VRec, (j, v) ∉ out := by
  intro v hv
  rcases (validas_ok_mem hout j v).mp hv with ⟨⟨x, hx, _⟩, _, _, _⟩
  rcases (mem_validasPre rs j x).mp hx with ⟨⟨y, hy3, rfl⟩, _⟩
  have hyr : y = upSale r2 := validasL2_at (validasL3_sub hy3) hj
  subst hyr
  have hfind := (mem_validasL3 rs j (upSale r2)).mp hy3
  have hmem1 : (i, upSale r1) ∈ validasL2 rs := memL2_of_key hi hk1
  have hpred : (fun q => decide (vKey q = vKey (j, upSale r2))) (i, upSale r1) = true := by
    simp [vKey, upSale, hk1, hk2]
  rcases find?_first (validasL2_pairwise rs) hfind hmem1 hpred with he | hlt
  · have hje : j = i := congrArg Prod.fst he
    omega
  · simp only at hlt
    omega

/-- C3 counterexample: the first record carries `Sale_ID` "X1" but a null
`Product`, the second is fully complete with the same `Sale_ID`. The claim
predicts the second record survives (dedup after completeness filtering);
the code dedups first, so the output is empty. -/
theorem C3_counterexample :
    limpiar_ventas_validas
        [⟨some "X1", none, some "100USD", some "2024-03-01", some ⟨2024, 3, 2⟩⟩,
         ⟨some "X1", some "B", some "100USD", some "2024-03-01", some ⟨2024, 3, 2⟩⟩] =
      .ok [] := by
  decide

/-- C3 (amended): the validity classifier deduplicates by `Sale_ID`
directly after the null-`Sale_ID` filter and before the `Product`,
`Amount` and date filters; consequently, when an earlier record has a
present `Sale_ID` with the same uppercased key as a later record but a
null `Product`, neither the earlier record (dropped by the `Product`
filter) nor the later one (dropped by the dedup, however complete it is)
reaches the output. -/
theorem C3_amended : ∀ (rs : List RawRecord) (i j : Nat) (r1 r2 : RawRecord)
    (k : String) (out : List (Nat × VRec)),
    rs[i]? = some r1 → rs[j]? = some r2 → i < j →
    r1.sale_id.map strUpper = some k →
    r2.sale_id.map strUpper = some k →
    r1.product = none →
    limpiar_ventas_validas rs = .ok out →
    ∀ v : VRec, (i, v) ∉ out ∧ (j, v) ∉ out := by
  intro rs i j r1 r2 k out hi hj hij hk1 hk2 hp1 hout v
  constructor
  · intro hv
    rcases (validas_ok_mem hout i v).mp hv with ⟨⟨x, hx, _⟩, _, _, _⟩
    rcases (mem_validasPre rs i x).mp hx with ⟨⟨y, hy3, rfl⟩, hps⟩
    have hyr : y = upSale r1 := validasL2_at (validasL3_sub hy3) hi
    subst hyr
    rw [show (normProd (upSale r1)).product = none from by
      simp [normProd, upSale, hp1]] at hps
    cases hps
  · exact fun hv => validas_drops_later_duplicate hi hj hij hk1 hk2 hout v hv

/-- C3 witness: on a concrete three-record batch (the two "X1" records of
the counterexample plus an unrelated complete record) the record the
original claim would keep is indeed absent from the computed output. -/
theorem C3_witness :
    (0, (⟨some "X1", some "B", some 10000, some ⟨2024, 3, 1⟩,
        some ⟨2024, 3, 2⟩⟩ : VRec)) ∉
      [((2 : Nat), (⟨some "Z9", some "C", some 900, some ⟨2024, 4, 5⟩,
          some ⟨2024, 3, 2⟩⟩ : VRec))]
    ∧ (1, (⟨some "X1", some "B", some 10000, some ⟨2024, 3, 1⟩,
        some ⟨2024, 3, 2⟩⟩ : VRec)) ∉
      [((2 : Nat), (⟨some "Z9", some "C", some 900, some ⟨2024, 4, 5⟩,
          some ⟨2024, 3, 2⟩⟩ : VRec))] :=
  C3_amended
    [⟨some "X1", none, some "100USD", some "2024-03-01", some ⟨2024, 3, 2⟩⟩,
     ⟨some "X1", some "B", some "100USD", some "2024-03-01", some ⟨2024, 3, 2⟩⟩,
     ⟨some "Z9", some "C", some "9USD", some "2024-04-05", some ⟨2024, 3, 2⟩⟩]
    0 1 _ _ "X1" _ rfl rfl (by omega) (by decide) (by decide) rfl (by decide)
    ⟨some "X1", some "B", some 10000, some ⟨2024, 3, 1⟩, some ⟨2024, 3, 2⟩⟩

/-- A record every field of which normalizes successfully and whose
`Amount` carries a valid currency mark: such a record passes every filter
of the validity classifier and rules 1-2 of the invalidity classifier. -/
def fullyValid (r : RawRecord) : Prop :=
  r.sale_id.isSome = true ∧ r.product.isSome = true ∧
  (∃ s, r.amount = some s ∧ (parseDecimal (stripCurrency s)).isSome = true ∧
    (containsSub3 (strUpper s) 'U' 'S' 'D' || containsSub3 (strUpper s) 'E' 'U' 'R') = true) ∧
  (∃ t, r.date = some t ∧ (parseDate t).isSome = true) ∧
  r.audit_date.isSome = true

theorem invSaleId_of_key {o : Option String} {k : String}
    (h : o.map strUpper = some k) : invSaleId o = k := by
  cases o with
  | none => cases h
  | some s =>
    have h2 : strUpper s = k := Option.some.inj h
    simpa [invSaleId, strOfOpt] using h2

/-- When a record's key appears nowhere else in the batch except possibly
at one later position, the dedup keeps the record's row: the `find?` over
the `Sale_ID`-filtered batch lands on it. -/
theorem validasL3_of_first {rs : List RawRecord} {i j : Nat} {r1 r2 : RawRecord}
    {k : String}
    (hi : rs[i]? = some r1) (hj : rs[j]? = some r2) (hij : i < j)
    (hk1 : r1.sale_id.map strUpper = some k)
    (hother : ∀ n r, rs[n]? = some r → n ≠ i → n ≠ j →
      r.sale_id.map strUpper ≠ some k) :
    (i, upSale r1) ∈ validasL3 rs := by
  have hmem1 : (i, upSale r1) ∈ validasL2 rs := memL2_of_key hi hk1
  have hpred1 : (fun q => decide (vKey q = vKey (i, upSale r1))) (i, upSale r1) = true := by
    simp
  have hsome : ((validasL2 rs).find?
      (fun q => decide (vKey q = vKey (i, upSale r1)))).isSome :=
    List.find?_isSome.mpr ⟨(i, upSale r1), hmem1, hpred1⟩
  rcases Option.isSome_iff_exists.mp hsome with ⟨b, hb⟩
  obtain ⟨nb, xb⟩ := b
  have hbpred := List.find?_some hb
  have hbmem := List.mem_of_find?_eq_some hb
  rcases (mem_validasL2 rs nb xb).mp hbmem with ⟨⟨rb, hrb, rfl⟩, _⟩
  have hkey : vKey (nb, upSale rb) = vKey (i, upSale r1) := of_decide_eq_true hbpred
  have hkb : rb.sale_id.map strUpper = some k := by
    have : (upSale rb).sale_id = (upSale r1).sale_id := hkey
    simpa [upSale, hk1] using this
  have hnb : nb = i ∨ nb = j := by
    by_contra hcon
    push_neg at hcon
    exact hother nb rb hrb hcon.1 hcon.2 hkb
  rcases hnb with rfl | rfl
  · rw [hi] at hrb
    cases hrb
    exact (mem_validasL3 rs nb (upSale r1)).mpr hb
  · rcases find?_first (validasL2_pairwise rs) hb hmem1 hpred1 with he | hlt
    · have : nb = i := congrArg Prod.fst he
      omega
    · simp only at hlt
      omega

/-- C5: two records that share a `Sale_ID` key and are both otherwise
valid (every field normalizes, valid currency mark), with no third record
carrying that key: the `Ventas_Validas_M` output keeps a row for the first
and none for the second, while `Ventas_Invalidas_M` carries rows for both,
each tagged Reason D. The batch-wide `amountSafe` hypothesis keeps the
column-wide `astype(float)` of line 79 from aborting the classifier. -/
theorem C5_confirmed : ∀ (rs : List RawRecord) (i j : Nat) (r1 r2 : RawRecord)
    (k : String),
    rs[i]? = some r1 → rs[j]? = some r2 → i < j →
    fullyValid r1 → fullyValid r2 →
    r1.sale_id.map strUpper = some k →
    r2.sale_id.map strUpper = some k →
    (∀ n r, rs[n]? = some r → n ≠ i → n ≠ j →
      r.sale_id.map strUpper ≠ some k) →
    (∀ r ∈ rs, amountSafe r) →
    ∃ out, limpiar_ventas_validas rs = .ok out
      ∧ (∃ v, (i, v) ∈ out)
      ∧ (∀ v, (j, v) ∉ out)
      ∧ (i, toIRec r1, Reason.D) ∈ limpiar_ventas_invalidas rs
      ∧ (j, toIRec r2, Reason.D) ∈ limpiar_ventas_invalidas rs := by
  intro rs i j r1 r2 k hi hj hij hv1 hv2 hk1 hk2 hother hsafe
  obtain ⟨hsale1, hprod1, ⟨s1, hs1, hps1, hcur1⟩, ⟨t1, ht1, hpt1⟩, haud1⟩ := hv1
  obtain ⟨hsale2, hprod2, ⟨s2, hs2, hps2, hcur2⟩, ⟨t2, ht2, hpt2⟩, haud2⟩ := hv2
  -- the classifier does not abort
  have hok : ∃ out, limpiar_ventas_validas rs = .ok out := by
    refine validas_ok_of_safe ?_
    intro p hp
    rcases validasPre_at hp with ⟨r, hr, hx⟩
    intro s hs
    refine hsafe r (List.mem_iff_getElem?.mpr ⟨_, hr⟩) s ?_
    rw [hx] at hs
    exact hs
  rcases hok with ⟨out, hout⟩
  refine ⟨out, hout, ?_, fun v => validas_drops_later_duplicate hi hj hij hk1 hk2 hout v, ?_, ?_⟩
  · -- the first record's row is in the output
    have hL3 : (i, upSale r1) ∈ validasL3 rs := validasL3_of_first hi hj hij hk1 hother
    have hpre : (i, normProd (upSale r1)) ∈ validasPre rs := by
      refine (mem_validasPre rs i (normProd (upSale r1))).mpr ⟨⟨upSale r1, hL3, rfl⟩, ?_⟩
      show ((upSale r1).product.map _).isSome = true
      show (r1.product.map _).isSome = true
      rcases Option.isSome_iff_exists.mp hprod1 with ⟨p1, hp1⟩
      rw [hp1]
      rfl
    rcases Option.isSome_iff_exists.mp hps1 with ⟨d1, hd1⟩
    rcases Option.isSome_iff_exists.mp hpt1 with ⟨dd1, hdd1⟩
    rcases Option.isSome_iff_exists.mp haud1 with ⟨ad1, had1⟩
    refine ⟨⟨(normProd (upSale r1)).sale_id, (normProd (upSale r1)).product,
        some (roundDiv (if endsWithEUR s1 then 85 * d1.mant else 100 * d1.mant)
          ((10 : Int) ^ d1.exp)),
        parseDate t1, r1.audit_date⟩, ?_⟩
    refine (validas_ok_mem hout i _).mpr ⟨⟨normProd (upSale r1), hpre, ?_⟩, ?_, ?_, ?_⟩
    · show rowConv (i, normProd (upSale r1)) = _
      unfold rowConv
      have hamt : (normProd (upSale r1)).amount = some s1 := hs1
      have hdt : (normProd (upSale r1)).date = some t1 := ht1
      rw [hamt, hdt]
      simp only [convAmount, hd1, Except.map]
      rfl
    · rfl
    · show (parseDate t1).isSome = true
      rw [hdd1]
      rfl
    · show r1.audit_date.isSome = true
      exact haud1
  · -- first record in the D bucket
    refine (mem_inv_iff rs i (toIRec r1) Reason.D).mpr
      ⟨(mem_invL rs i (toIRec r1)).mpr ⟨r1, hi, rfl⟩, Or.inr (Or.inr ⟨rfl, ?_, ?_, ?_⟩)⟩
    · rcases Option.isSome_iff_exists.mp haud1 with ⟨ad1, had1⟩
      simp [isNullRow, toIRec, hs1, ht1, had1]
    · simp [validCur, toIRec, hs1, hcur1]
    · refine countP_two (l := invRestantes rs)
        (a := (i, toIRec r1)) (b := (j, toIRec r2)) ?_ ?_ ?_ ?_ ?_
      · refine (mem_invRestantes rs i (toIRec r1)).mpr
          ⟨(mem_invL rs i (toIRec r1)).mpr ⟨r1, hi, rfl⟩, ?_, ?_⟩
        · rcases Option.isSome_iff_exists.mp haud1 with ⟨ad1, had1⟩
          simp [isNullRow, toIRec, hs1, ht1, had1]
        · simp [validCur, toIRec, hs1, hcur1]
      · refine (mem_invRestantes rs j (toIRec r2)).mpr
          ⟨(mem_invL rs j (toIRec r2)).mpr ⟨r2, hj, rfl⟩, ?_, ?_⟩
        · rcases Option.isSome_iff_exists.mp haud2 with ⟨ad2, had2⟩
          simp [isNullRow, toIRec, hs2, ht2, had2]
        · simp [validCur, toIRec, hs2, hcur2]
      · intro he
        have : i = j := congrArg Prod.fst he
        omega
      · simp
      · have e1 : (toIRec r1).sale_id = k := invSaleId_of_key hk1
        have e2 : (toIRec r2).sale_id = k := invSaleId_of_key hk2
        simp [e1, e2]
  · -- second record in the D bucket
    refine (mem_inv_iff rs j (toIRec r2) Reason.D).mpr
      ⟨(mem_invL rs j (toIRec r2)).mpr ⟨r2, hj, rfl⟩, Or.inr (Or.inr ⟨rfl, ?_, ?_, ?_⟩)⟩
    · rcases Option.isSome_iff_exists.mp haud2 with ⟨ad2, had2⟩
      simp [isNullRow, toIRec, hs2, ht2, had2]
    · simp [validCur, toIRec, hs2, hcur2]
    · refine countP_two (l := invRestantes rs)
        (a := (j, toIRec r2)) (b := (i, toIRec r1)) ?_ ?_ ?_ ?_ ?_
      · refine (mem_invRestantes rs j (toIRec r2)).mpr
          ⟨(mem_invL rs j (toIRec r2)).mpr ⟨r2, hj, rfl⟩, ?_, ?_⟩
        · rcases Option.isSome_iff_exists.mp haud2 with ⟨ad2, had2⟩
          simp [isNullRow, toIRec, hs2, ht2, had2]
        · simp [validCur, toIRec, hs2, hcur2]
      · refine (mem_invRestantes rs i (toIRec r1)).mpr
          ⟨(mem_invL rs i (toIRec r1)).mpr ⟨r1, hi, rfl⟩, ?_, ?_⟩
        · rcases Option.isSome_iff_exists.mp haud1 with ⟨ad1, had1⟩
          simp [isNullRow, toIRec, hs1, ht1, had1]
        · simp [validCur, toIRec, hs1, hcur1]
      · intro he
        have : j = i := congrArg Prod.fst he
        omega
      · simp
      · have e1 : (toIRec r1).sale_id = k := invSaleId_of_key hk1
        have e2 : (toIRec r2).sale_id = k := invSaleId_of_key hk2
        simp [e1, e2]

/-- C5 witness: the duplicate-handling divergence on a concrete two-record
batch sharing the key "X1". -/
theorem C5_witness :
    ∃ out, limpiar_ventas_validas
        [⟨some "x1", some "A-B", some "10USD", some "2024-03-01", some ⟨2024, 3, 2⟩⟩,
         ⟨some "X1", some "C", some "20USD", some "2024-03-05", some ⟨2024, 3, 2⟩⟩] = .ok out
      ∧ (∃ v, (0, v) ∈ out)
      ∧ (∀ v, (1, v) ∉ out)
      ∧ (0, toIRec ⟨some "x1", some "A-B", some "10USD", some "2024-03-01",
          some ⟨2024, 3, 2⟩⟩, Reason.D) ∈ limpiar_ventas_invalidas
            [⟨some "x1", some "A-B", some "10USD", some "2024-03-01", some ⟨2024, 3, 2⟩⟩,
             ⟨some "X1", some "C", some "20USD", some "2024-03-05", some ⟨2024, 3, 2⟩⟩]
      ∧ (1, toIRec ⟨some "X1", some "C", some "20USD", some "2024-03-05",
          some ⟨2024, 3, 2⟩⟩, Reason.D) ∈ limpiar_ventas_invalidas
            [⟨some "x1", some "A-B", some "10USD", some "2024-03-01", some ⟨2024, 3, 2⟩⟩,
             ⟨some "X1", some "C", some "20USD", some "2024-03-05", some ⟨2024, 3, 2⟩⟩] := by
  refine C5_confirmed _ 0 1 _ _ "X1" rfl rfl (by omega)
    ⟨rfl, rfl, ⟨"10USD", rfl, by decide, by decide⟩,
      ⟨"2024-03-01", rfl, by decide⟩, rfl⟩
    ⟨rfl, rfl, ⟨"20USD", rfl, by decide, by decide⟩,
      ⟨"2024-03-05", rfl, by decide⟩, rfl⟩
    (by decide) (by decide) ?_ ?_
  · intro n r hn h0 h1
    match n, hn with
    | 0, _ => exact absurd rfl h0
    | 1, _ => exact absurd rfl h1
    | m + 2, hn => ?_
    rw [List.getElem?_eq_none
      (by simp only [List.length_cons, List.length_nil]; omega)] at hn
    cases hn
  · intro r hr
    rcases List.mem_cons.mp hr with rfl | hr2
    · intro s hs
      cases hs
      decide
    · rcases List.mem_cons.mp hr2 with rfl | hr3
      · intro s hs
        cases hs
        decide
      · simp at hr3

/-! ### Order facts about the aggregation key and the aggregator's output
(C9, C10) -/

theorem charListLt_irrefl : ∀ (as : List Char), charListLt as as = false := by
  intro as
  induction as with
  | nil => rfl
  | cons a as ih => simp [charListLt, ih, lt_self_iff_false]

theorem charListLt_trichotomy : ∀ (as bs : List Char),
    charListLt as bs = true ∨ as = bs ∨ charListLt bs as = true := by
  intro as
  induction as with
  | nil =>
    intro bs
    cases bs with
    | nil => exact Or.inr (Or.inl rfl)
    | cons b bs => exact Or.inl rfl
  | cons a as ih =>
    intro bs
    cases bs with
    | nil => exact Or.inr (Or.inr rfl)
    | cons b bs =>
      rcases Nat.lt_trichotomy a.toNat b.toNat with h | h | h
      · left
        simp [charListLt, h]
      · have hab : a = b := Char.eq_of_val_eq (UInt32.eq_of_val_eq (Fin.eq_of_val_eq h))
        subst hab
        rcases ih bs with h2 | h2 | h2
        · left
          simp [charListLt, h2]
        · right; left
          rw [h2]
        · right; right
          simp [charListLt, h2]
      · right; right
        simp [charListLt, h]

theorem charListLt_asymm : ∀ {as bs : List Char},
    charListLt as bs = true → charListLt bs as = false := by
  intro as
  induction as with
  | nil =>
    intro bs h
    cases bs with
    | nil => cases h
    | cons b bs => rfl
  | cons a as ih =>
    intro bs h
    cases bs with
    | nil => cases h
    | cons b bs =>
      simp only [charListLt, Bool.or_eq_true, Bool.and_eq_true, decide_eq_true_eq] at h
      rcases h with h | ⟨he, hlt⟩
      · have h1 : ¬ b.toNat < a.toNat := by omega
        have h2 : ¬ b.toNat = a.toNat := by omega
        simp [charListLt, h1, h2]
      · have h1 : ¬ b.toNat < a.toNat := by omega
        have h2 : b.toNat = a.toNat := by omega
        simp [charListLt, h1, h2, ih hlt]

theorem charListLt_trans : ∀ {as bs cs : List Char},
    charListLt as bs = true → charListLt bs cs = true → charListLt as cs = true := by
  intro as
  induction as with
  | nil =>
    intro bs cs h1 h2
    cases bs with
    | nil => cases h1
    | cons b bs =>
      cases cs with
      | nil => cases h2
      | cons c cs => rfl
  | cons a as ih =>
    intro bs cs h1 h2
    cases bs with
    | nil => cases h1
    | cons b bs =>
      cases cs with
      | nil => cases h2
      | cons c cs =>
        simp only [charListLt, Bool.or_eq_true, Bool.and_eq_true,
          decide_eq_true_eq] at h1 h2 ⊢
        rcases h1 with h1 | ⟨h1e, h1l⟩ <;> rcases h2 with h2 | ⟨h2e, h2l⟩
        · exact Or.inl (by omega)
        · exact Or.inl (by omega)
        · exact Or.inl (by omega)
        · exact Or.inr ⟨by omega, ih h1l h2l⟩

theorem strLtB_of_data {s t : String} (h : charListLt s.data t.data = true) :
    strLtB s t = true := h

theorem string_eq_of_data {s t : String} (h : s.data = t.data) : s = t :=
  String.toList_inj.mp h

theorem keyLe_iff (a b : String × String) :
    keyLe a b ↔
      strLtB a.1 b.1 = true ∨ (a.1 = b.1 ∧ (strLtB a.2 b.2 = true ∨ a.2 = b.2)) := by
  unfold keyLe
  simp [Bool.or_eq_true, Bool.and_eq_true, decide_eq_true_eq]

instance : IsTotal (String × String) keyLe := by
  constructor
  intro a b
  rw [keyLe_iff, keyLe_iff]
  rcases charListLt_trichotomy a.1.data b.1.data with h | h | h
  · exact Or.inl (Or.inl h)
  · have he1 : a.1 = b.1 := string_eq_of_data h
    rcases charListLt_trichotomy a.2.data b.2.data with h2 | h2 | h2
    · exact Or.inl (Or.inr ⟨he1, Or.inl h2⟩)
    · exact Or.inl (Or.inr ⟨he1, Or.inr (string_eq_of_data h2)⟩)
    · exact Or.inr (Or.inr ⟨he1.symm, Or.inl h2⟩)
  · exact Or.inr (Or.inl h)

instance : IsTrans (String × String) keyLe := by
  constructor
  intro a b c hab hbc
  rw [keyLe_iff] at hab hbc ⊢
  rcases hab with h1 | ⟨h1e, h1r⟩ <;> rcases hbc with h2 | ⟨h2e, h2r⟩
  · exact Or.inl (charListLt_trans h1 h2)
  · exact Or.inl (h2e ▸ h1)
  · exact Or.inl (h1e ▸ h2)
  · refine Or.inr ⟨h1e.trans h2e, ?_⟩
    rcases h1r with hl1 | he1 <;> rcases h2r with hl2 | he2
    · exact Or.inl (charListLt_trans hl1 hl2)
    · exact Or.inl (he2 ▸ hl1)
    · exact Or.inl (he1 ▸ hl2)
    · exact Or.inr (he1.trans he2)

theorem strLt_asymm_false {s t : String} (h : strLtB s t = true)
    (h2 : strLtB t s = true) : False := by
  have h2c : charListLt t.data s.data = true := h2
  rw [charListLt_asymm h] at h2c
  cases h2c

theorem strLt_irrefl_false {s : String} (h : strLtB s s = true) : False := by
  have hc : charListLt s.data s.data = true := h
  rw [charListLt_irrefl] at hc
  cases hc

instance : IsAntisymm (String × String) keyLe := by
  constructor
  intro a b hab hba
  rw [keyLe_iff] at hab hba
  obtain ⟨a1, a2⟩ := a
  obtain ⟨b1, b2⟩ := b
  simp only at hab hba
  rcases hab with h1 | ⟨h1e, h1r⟩
  · rcases hba with h2 | ⟨h2e, h2r⟩
    · exact (strLt_asymm_false h1 h2).elim
    · exact (strLt_irrefl_false (h2e ▸ h1)).elim
  · subst h1e
    rcases hba with h2 | ⟨_, h2r⟩
    · exact (strLt_irrefl_false h2).elim
    · rcases h1r with hl1 | he1
      · rcases h2r with hl2 | he2
        · exact (strLt_asymm_false hl1 hl2).elim
        · exact (strLt_irrefl_false (he2 ▸ hl1)).elim
      · subst he1
        rfl

theorem mem_dedupBy_id {α : Type} [DecidableEq α] (l : List α) (p : α) :
    p ∈ dedupBy id l ↔ p ∈ l := by
  constructor
  · exact dedupBy_subset
  · intro hp
    rw [mem_dedupBy]
    induction l with
    | nil => cases hp
    | cons x xs ih =>
      rcases List.mem_cons.mp hp with rfl | hp2
      · rw [List.find?_cons_of_pos _ (by simp)]
      · by_cases hx : x = p
        · subst hx
          rw [List.find?_cons_of_pos _ (by simp)]
        · rw [List.find?_cons_of_neg _ (by simp [hx])]
          exact ih hp2

theorem nodup_dedupBy_id {α : Type} [DecidableEq α] (l : List α) :
    (dedupBy id l).Nodup :=
  (dedupBy_keys_pairwise id l).imp (fun hab => hab)

theorem mem_resumenKeys (rows : List (Nat × VRec)) (k : String × String) :
    k ∈ resumenKeys rows ↔ ∃ p ∈ rows, keyOf p.2 = k := by
  unfold resumenKeys
  rw [mem_dedupBy_id]
  simp [List.mem_map]

theorem mem_resumen (rows : List (Nat × VRec)) (sRow : SummaryRow) :
    sRow ∈ generar_ventas_resumen_mensual rows ↔
      ∃ k, k ∈ resumenKeys rows ∧ sRow = resumenRow rows k := by
  unfold generar_ventas_resumen_mensual
  simp only [List.mem_map, List.mem_insertionSort]
  constructor
  · rintro ⟨k, hk, rfl⟩
    exact ⟨k, hk, rfl⟩
  · rintro ⟨k, hk, rfl⟩
    exact ⟨k, hk, rfl⟩

/-- C9: the monthly aggregator groups by `(month string, product)` and
emits one row per observed key with `total = sum`, `count = group size`
and `minimum = group minimum` of the `Amount` column (in cents); in
particular two valid rows for product "A" in month "03/2024" with amounts
10.00 and 25.50 (1000 and 2550 cents) yield the single row
("03/2024", "A", 35.50, 2, 10.00), i.e. (3550, 2, 1000) in cents. -/
theorem C9_confirmed :
    (∀ (rows : List (Nat × VRec)),
      (∀ sRow ∈ generar_ventas_resumen_mensual rows,
          ∃ p ∈ rows, keyOf p.2 = (sRow.mes, sRow.producto))
      ∧ (∀ p ∈ rows, ∃ sRow ∈ generar_ventas_resumen_mensual rows,
          (sRow.mes, sRow.producto) = keyOf p.2)
      ∧ List.Pairwise (fun a b => (a.mes, a.producto) ≠ (b.mes, b.producto))
          (generar_ventas_resumen_mensual rows)
      ∧ (∀ sRow ∈ generar_ventas_resumen_mensual rows,
          sRow.ventas_totales = (groupAmts rows (sRow.mes, sRow.producto)).sum
          ∧ sRow.numero_transacciones =
              (groupAmts rows (sRow.mes, sRow.producto)).length
          ∧ sRow.venta_minima =
              (amtMin (groupAmts rows (sRow.mes, sRow.producto))).getD 0))
    ∧ generar_ventas_resumen_mensual
        [(0, ⟨some "S1", some "A", some 1000, some ⟨2024, 3, 1⟩, some ⟨2024, 3, 2⟩⟩),
         (1, ⟨some "S2", some "A", some 2550, some ⟨2024, 3, 9⟩, some ⟨2024, 3, 2⟩⟩)] =
      [⟨"03/2024", "A", 3550, 2, 1000⟩] := by
  refine ⟨?_, by decide⟩
  intro rows
  refine ⟨?_, ?_, ?_, ?_⟩
  · intro sRow hs
    rcases (mem_resumen rows sRow).mp hs with ⟨k, hk, rfl⟩
    rcases (mem_resumenKeys rows k).mp hk with ⟨p, hp, hkey⟩
    exact ⟨p, hp, by simp [resumenRow, hkey]⟩
  · intro p hp
    refine ⟨resumenRow rows (keyOf p.2), (mem_resumen rows _).mpr
      ⟨keyOf p.2, (mem_resumenKeys rows _).mpr ⟨p, hp, rfl⟩, rfl⟩, ?_⟩
    simp [resumenRow]
  · unfold generar_ventas_resumen_mensual
    have hnd : (List.insertionSort keyLe (resumenKeys rows)).Nodup :=
      ((List.perm_insertionSort keyLe (resumenKeys rows)).nodup_iff).mpr
        (nodup_dedupBy_id _)
    exact List.Pairwise.map _ (fun a b hab => by simpa [resumenRow] using hab) hnd
  · intro sRow hs
    rcases (mem_resumen rows sRow).mp hs with ⟨k, hk, rfl⟩
    exact ⟨by simp [resumenRow], by simp [resumenRow], by simp [resumenRow]⟩

/-- C9 witness: the aggregate fields of the concrete example row agree
with the group aggregates. -/
theorem C9_witness :
    (⟨"03/2024", "A", 3550, 2, 1000⟩ : SummaryRow).ventas_totales =
      (groupAmts
        [(0, ⟨some "S1", some "A", some 1000, some ⟨2024, 3, 1⟩, some ⟨2024, 3, 2⟩⟩),
         (1, ⟨some "S2", some "A", some 2550, some ⟨2024, 3, 9⟩, some ⟨2024, 3, 2⟩⟩)]
        ((⟨"03/2024", "A", 3550, 2, 1000⟩ : SummaryRow).mes,
         (⟨"03/2024", "A", 3550, 2, 1000⟩ : SummaryRow).producto)).sum
    ∧ (⟨"03/2024", "A", 3550, 2, 1000⟩ : SummaryRow).numero_transacciones =
      (groupAmts
        [(0, ⟨some "S1", some "A", some 1000, some ⟨2024, 3, 1⟩, some ⟨2024, 3, 2⟩⟩),
         (1, ⟨some "S2", some "A", some 2550, some ⟨2024, 3, 9⟩, some ⟨2024, 3, 2⟩⟩)]
        ((⟨"03/2024", "A", 3550, 2, 1000⟩ : SummaryRow).mes,
         (⟨"03/2024", "A", 3550, 2, 1000⟩ : SummaryRow).producto)).length
    ∧ (⟨"03/2024", "A", 3550, 2, 1000⟩ : SummaryRow).venta_minima =
      (amtMin (groupAmts
        [(0, ⟨some "S1", some "A", some 1000, some ⟨2024, 3, 1⟩, some ⟨2024, 3, 2⟩⟩),
         (1, ⟨some "S2", some "A", some 2550, some ⟨2024, 3, 9⟩, some ⟨2024, 3, 2⟩⟩)]
        ((⟨"03/2024", "A", 3550, 2, 1000⟩ : SummaryRow).mes,
         (⟨"03/2024", "A", 3550, 2, 1000⟩ : SummaryRow).producto))).getD 0 :=
  (C9_confirmed.1 _).2.2.2 ⟨"03/2024", "A", 3550, 2, 1000⟩ (by decide)

/-- C10: the aggregator emits its rows sorted ascending in the
lexicographic `(Mes, Producto)` order (Python string comparison by code
point), and its whole output is invariant under permutations of the input
rows: a deterministic ordering stronger than the unspecified group order
the spec allows. -/
theorem C10_confirmed : ∀ (rows rows2 : List (Nat × VRec)),
    List.Pairwise (fun a b => keyLe (a.mes, a.producto) (b.mes, b.producto))
      (generar_ventas_resumen_mensual rows)
    ∧ (rows.Perm rows2 →
        generar_ventas_resumen_mensual rows = generar_ventas_resumen_mensual rows2) := by
  intro rows rows2
  constructor
  · unfold generar_ventas_resumen_mensual
    exact List.Pairwise.map _ (fun a b h => by simpa [resumenRow] using h)
      (List.sorted_insertionSort keyLe (resumenKeys rows))
  · intro hperm
    unfold generar_ventas_resumen_mensual
    have hp12 : (resumenKeys rows).Perm (resumenKeys rows2) := by
      refine (List.perm_ext_iff_of_nodup (nodup_dedupBy_id _)
        (nodup_dedupBy_id _)).mpr ?_
      intro k
      show k ∈ resumenKeys rows ↔ k ∈ resumenKeys rows2
      rw [mem_resumenKeys, mem_resumenKeys]
      constructor
      · rintro ⟨p, hp, hk⟩
        exact ⟨p, hperm.mem_iff.mp hp, hk⟩
      · rintro ⟨p, hp, hk⟩
        exact ⟨p, hperm.mem_iff.mpr hp, hk⟩
    have hkeys : List.insertionSort keyLe (resumenKeys rows) =
        List.insertionSort keyLe (resumenKeys rows2) :=
      List.eq_of_perm_of_sorted
        ((List.perm_insertionSort keyLe (resumenKeys rows)).trans
          (hp12.trans (List.perm_insertionSort keyLe (resumenKeys rows2)).symm))
        (List.sorted_insertionSort keyLe (resumenKeys rows))
        (List.sorted_insertionSort keyLe (resumenKeys rows2))
    rw [hkeys]
    refine List.map_congr_left ?_
    intro k hk
    have hg : (groupAmts rows k).Perm (groupAmts rows2 k) :=
      (hperm.filter _).map _
    unfold resumenRow
    rw [hg.sum_eq, hg.length_eq, amtMin_perm hg]

/-- C10 witness: swapping the two input rows of a concrete batch leaves
the aggregator's output unchanged. -/
theorem C10_witness :
    generar_ventas_resumen_mensual
        [(0, ⟨some "S1", some "B", some 1000, some ⟨2024, 3, 1⟩, some ⟨2024, 3, 2⟩⟩),
         (1, ⟨some "S2", some "A", some 2550, some ⟨2024, 4, 9⟩, some ⟨2024, 3, 2⟩⟩)] =
      generar_ventas_resumen_mensual
        [(1, ⟨some "S2", some "A", some 2550, some ⟨2024, 4, 9⟩, some ⟨2024, 3, 2⟩⟩),
         (0, ⟨some "S1", some "B", some 1000, some ⟨2024, 3, 1⟩, some ⟨2024, 3, 2⟩⟩)] :=
  (C10_confirmed _ _).2
    (List.Perm.swap
      (((1 : Nat),
        (⟨some "S2", some "A", some 2550, some ⟨2024, 4, 9⟩, some ⟨2024, 3, 2⟩⟩ : VRec)))
      (((0 : Nat),
        (⟨some "S1", some "B", some 1000, some ⟨2024, 3, 1⟩, some ⟨2024, 3, 2⟩⟩ : VRec))) [])

end ETL
